import Mathlib

/-!
# Verification of the Hasami Shogi rules engine and search engine

Shallow embedding of the game logic in `hasami_shogi.py` (class `HasamiShogi`)
and the AI in `ia_shogi.py` (class `IA`).  Cells hold `0` (empty), `1` (black,
"noir") or `2` (white, "blanc"); the board is the 9×9 integer matrix
`self.plateau`.  Python `float` scores are modelled exactly by rationals
extended with `±inf` (the search only ever combines evaluator outputs with
`min`/`max` and the infinities, so no rounding behaviour is load-bearing for
the properties proved here).  The 64-bit `blake2b` transposition hash of the
board bytes is modelled by the board value itself (the hash is injective up to
collisions, which are not representable in this embedding).
-/

namespace Hasami

/-- The 9×9 board `self.plateau`: a total map from coordinates to cell values. -/
def Board : Type := Fin 9 → Fin 9 → Nat

instance : DecidableEq Board := by unfold Board; infer_instance

instance : Inhabited Board := ⟨fun _ _ => 0⟩

/-- Python index check `0 <= k < 9 and 0 <= l < 9` for a coordinate pair. -/
def inB (p : Int × Int) : Prop :=
  0 ≤ p.1 ∧ p.1 < 9 ∧ 0 ≤ p.2 ∧ p.2 < 9

instance : DecidablePred inB := fun p => by unfold inB; infer_instance

/-- Read `plateau[k][l]` at integer coordinates; out-of-range reads return 0.
All reads in the embedding sit behind the same bound checks as the source. -/
def cellAt (b : Board) (p : Int × Int) : Nat :=
  if h : inB p then
    b ⟨p.1.toNat, by obtain ⟨h1, h2, h3, h4⟩ := h; omega⟩
      ⟨p.2.toNat, by obtain ⟨h1, h2, h3, h4⟩ := h; omega⟩
  else 0

/-- Write `plateau[k][l] = v` at integer coordinates (no-op out of range). -/
def setCell (b : Board) (p : Int × Int) (v : Nat) : Board :=
  if h : inB p then
    fun i j =>
      if i = (⟨p.1.toNat, by obtain ⟨h1, h2, h3, h4⟩ := h; omega⟩ : Fin 9) ∧
         j = (⟨p.2.toNat, by obtain ⟨h1, h2, h3, h4⟩ := h; omega⟩ : Fin 9) then v
      else b i j
  else b

/-- Build a board from a list of rows (row-major), missing entries empty. -/
def boardOfRows (rows : List (List Nat)) : Board := fun i j =>
  (((rows.get? i.val).getD []).get? j.val).getD 0

/-- `np.sum(plateau == v)`: number of cells holding value `v`. -/
def countVal (b : Board) (v : Nat) : Nat :=
  ((List.finRange 9).map
    (fun i => ((List.finRange 9).filter (fun j => b i j = v)).length)).sum

/-- The starting position: black pawns on row 0, white pawns on row 8
(`initialiser_plateau`). -/
def plateauInitial : Board := fun i _ =>
  if i.val = 0 then 1 else if i.val = 8 then 2 else 0

/-- The cell reached after `t + 1` steps from `pos` in direction `dir`. -/
def stepCell (pos dir : Int × Int) (t : Nat) : Int × Int :=
  (pos.1 + (t + 1 : Int) * dir.1, pos.2 + (t + 1 : Int) * dir.2)

/-- The cells visited by a `while 0 <= k < 9 (and 0 <= l < 9)` walk starting one
step from `p` in direction `d`: successive cells until the first out-of-range
one.  Nine steps always suffice to leave the board for a nonzero direction. -/
def rayCells (p : Int × Int) (d : Int × Int) : List (Int × Int) :=
  ((List.range 9).map (stepCell p d)).takeWhile (fun q => decide (inB q))

/-- The four orthogonal scan directions of `verifier_capture`, in source order
`[(0, 1), (1, 0), (0, -1), (-1, 0)]`. -/
def dirsOrtho : List (Int × Int) := [(0, 1), (1, 0), (0, -1), (-1, 0)]

/-- Move-generation walk directions, in source order: the two horizontal
`for direction in [-1, 1]` walks, then the two vertical ones. -/
def dirsCoups : List (Int × Int) := [(0, -1), (0, 1), (-1, 0), (1, 0)]

/-- The inner capture-scan loop shared (verbatim in semantics) by
`HasamiShogi.verifier_capture` and `IA.simuler_coup`: walk the in-range cells
of one ray, break returning nothing at an empty cell, return the collected
opposing run at a cell of the mover, collect opposing pieces otherwise; a walk
that runs off the board contributes nothing.  (`verifier_capture` guards its
`captures.extend(pions_adverses)` with `if pions_adverses:`, which is a no-op
difference: extending by an empty run adds nothing.) -/
def scanRay (b : Board) (joueur : Nat) : List (Int × Int) → List (Int × Int) → List (Int × Int)
  | [], _ => []
  | c :: rest, acc =>
    let v := cellAt b c
    if v = 0 then []
    else if v = joueur then acc
    else if v = 3 - joueur then scanRay b joueur rest (acc ++ [c])
    else scanRay b joueur rest acc

/-- Ray contribution of the classical capture scan from `pos` in direction `d`. -/
def rayCaptures (b : Board) (joueur : Nat) (pos d : Int × Int) : List (Int × Int) :=
  scanRay b joueur (rayCells pos d) []

/-- `HasamiShogi.obtenir_coups_valides`: from `position`, walk each of the four
orthogonal rays appending empty cells and breaking at the first occupied cell
(the source's two `for direction in [-1, 1]` loops over columns then rows). -/
def obtenir_coups_valides (b : Board) (position : Int × Int) : List (Int × Int) :=
  dirsCoups.foldl
    (fun coups d => coups ++ (rayCells position d).takeWhile (fun q => decide (cellAt b q = 0)))
    []

/-- The four diagonal scan directions of the optional diagonal capture. -/
def dirsDiag : List (Int × Int) := [(-1, -1), (-1, 1), (1, -1), (1, 1)]

/-- The corner list of `verifier_capture`, in source scan order. -/
def coins : List (Int × Int) := [(0, 0), (0, 8), (8, 0), (8, 8)]

/-- The per-corner test of `verifier_capture`'s corner loop: the corner holds
an opposing piece and both of its orthogonal neighbours hold the mover's. -/
def coinQualifie (b : Board) (joueur : Nat) (c : Int × Int) : Bool :=
  cellAt b c = 3 - joueur &&
  (if c = ((0 : Int), (0 : Int)) then
      decide (cellAt b (0, 1) = joueur ∧ cellAt b (1, 0) = joueur)
   else if c = (0, 8) then
      decide (cellAt b (0, 7) = joueur ∧ cellAt b (1, 8) = joueur)
   else if c = (8, 0) then
      decide (cellAt b (7, 0) = joueur ∧ cellAt b (8, 1) = joueur)
   else if c = (8, 8) then
      decide (cellAt b (7, 8) = joueur ∧ cellAt b (8, 7) = joueur)
   else false)

/-- The ray-scan part of `verifier_capture`: the four orthogonal scans plus,
when `capture_diagonale` is set, the four diagonal scans. -/
def capturesClassiques (capture_diagonale : Bool) (b : Board) (joueur : Nat)
    (position : Int × Int) : List (Int × Int) :=
  let classiques := dirsOrtho.foldl (fun cap d => cap ++ rayCaptures b joueur position d) []
  if capture_diagonale then
    dirsDiag.foldl (fun cap d => cap ++ rayCaptures b joueur position d) classiques
  else classiques

/-- `HasamiShogi.verifier_capture`: classical scans over the four orthogonal
directions, diagonal scans when `capture_diagonale` is set, then the corner
loop which appends at most the first qualifying corner (the source `break`s at
it).  Note the source runs the corner block unconditionally — the
`capture_multiple_corners` option attribute is never consulted by it. -/
def verifier_capture (capture_diagonale : Bool) (b : Board) (joueur : Nat)
    (position : Int × Int) : List (Int × Int) :=
  let avecDiag := capturesClassiques capture_diagonale b joueur position
  match coins.find? (fun c => coinQualifie b joueur c) with
  | some c => avecDiag ++ [c]
  | none => avecDiag

/-- Board after the bare relocation `plateau[arr] = plateau[dep]; plateau[dep] = 0`. -/
def plateauApresDeplacement (b : Board) (depart arrivee : Int × Int) : Board :=
  setCell (setCell b arrivee (cellAt b depart)) depart 0

/-- The ray captures computed inside `IA.simuler_coup` on the post-relocation
board: horizontal directions `[-1, 1]` then vertical `[-1, 1]`, with the same
scan loop as `verifier_capture` and no corner or diagonal handling. -/
def simulerCaptures (nouveau : Board) (arrivee : Int × Int) (joueur : Nat) :
    List (Int × Int) :=
  dirsCoups.foldl (fun cap d => cap ++ rayCaptures nouveau joueur arrivee d) []

/-- `IA.simuler_coup`: copy the board, relocate the piece, run the two
orthogonal capture scans, clear the captured cells, return the new board. -/
def simuler_coup (plateau : Board) (depart arrivee : Int × Int) (joueur : Nat) : Board :=
  let nouveau := plateauApresDeplacement plateau depart arrivee
  let captures := simulerCaptures nouveau arrivee joueur
  captures.foldl (fun bb c => setCell bb c 0) nouveau

/-- `IA.is_terminal_state` (its Python `joueur` parameter is unused and
omitted): thresholds 2 and 3 hard-coded, black's defeat threshold checked
first, then white's, then the piece-count differential. -/
def is_terminal_state (plateau : Board) : Option Nat :=
  let pions_noirs := countVal plateau 1
  let pions_blancs := countVal plateau 2
  if pions_noirs ≤ 2 then some 2
  else if pions_blancs ≤ 2 then some 1
  else
    let ecart := ((pions_noirs : Int) - (pions_blancs : Int)).natAbs
    if 3 ≤ ecart then
      if pions_blancs < pions_noirs then some 1 else some 2
    else none

/-- `HasamiShogi.verifier_victoire`, parameterised by the configured
`seuil_defaite` and `seuil_ecart_victoire` instance attributes. -/
def verifier_victoire (seuil_defaite seuil_ecart_victoire : Nat)
    (plateau : Board) : Option Nat :=
  let pions_noirs := countVal plateau 1
  let pions_blancs := countVal plateau 2
  if pions_noirs ≤ seuil_defaite then some 2
  else if pions_blancs ≤ seuil_defaite then some 1
  else
    let ecart := ((pions_noirs : Int) - (pions_blancs : Int)).natAbs
    if seuil_ecart_victoire ≤ ecart then
      if pions_blancs < pions_noirs then some 1 else some 2
    else none

/-- `HasamiShogi.cle_position`: the flattened board digits followed by the
player, modelled as the corresponding list of numbers (the Python string of
one-digit characters is injectively equivalent). -/
def cle_position (plateau : Board) (joueur : Nat) : List Nat :=
  ((List.finRange 9).flatMap (fun i => (List.finRange 9).map (fun j => plateau i j))) ++ [joueur]

/-- The mutable state of a `HasamiShogi` instance that `deplacer_pion` reads
and writes (the occurrence dictionary is modelled as its lookup function,
`positions_occurrence.get(cle, 0)`). -/
structure GameState where
  plateau : Board
  joueur_actuel : Nat
  positions_occurrence : List Nat → Nat
  derniere_capture : Nat
  capture_effectuee : Bool
  coups_valides : List (Int × Int)
  partie_terminee : Bool
  gagnant : Option Nat
  capture_diagonale : Bool
  seuil_defaite : Nat
  seuil_ecart_victoire : Nat

/-- The capture list `deplacer_pion` obtains from `verifier_capture` on the
board after the bare relocation. -/
def capturesApres (s : GameState) (depart arrivee : Int × Int) : List (Int × Int) :=
  verifier_capture s.capture_diagonale (plateauApresDeplacement s.plateau depart arrivee)
    s.joueur_actuel arrivee

/-- The board held by the game after `deplacer_pion`'s relocation and capture
removal. -/
def plateauApresCoup (s : GameState) (depart arrivee : Int × Int) : Board :=
  (capturesApres s depart arrivee).foldl (fun bb c => setCell bb c 0)
    (plateauApresDeplacement s.plateau depart arrivee)

/-- The position key `deplacer_pion` records after a successful move: the new
board together with the side to move next, `3 - self.joueur_actuel`. -/
def cleApresCoup (s : GameState) (depart arrivee : Int × Int) : List Nat :=
  cle_position (plateauApresCoup s depart arrivee) (3 - s.joueur_actuel)

/-- `HasamiShogi.deplacer_pion`: reject a destination absent from the stored
`coups_valides` (returning `False` with the state untouched); otherwise move
the piece, apply the captures from `verifier_capture`, update the no-capture
counter, declare a draw at 60 no-capture half-moves (before touching the
occurrence map), otherwise record the new position key for the side to move
next and declare a draw at its third occurrence. -/
def deplacer_pion (s : GameState) (depart arrivee : Int × Int) : Bool × GameState :=
  if arrivee ∈ s.coups_valides then
    let captures := capturesApres s depart arrivee
    let b2 := plateauApresCoup s depart arrivee
    let derniere := if captures.isEmpty then s.derniere_capture + 1 else 0
    let s1 := { s with plateau := b2, capture_effectuee := !captures.isEmpty,
                       derniere_capture := derniere }
    if 60 ≤ derniere then
      (true, { s1 with partie_terminee := true, gagnant := none })
    else
      let cle := cleApresCoup s depart arrivee
      let occ' := fun k =>
        if k = cle then s.positions_occurrence cle + 1 else s.positions_occurrence k
      let s2 := { s1 with positions_occurrence := occ' }
      if 3 ≤ occ' cle then
        (true, { s2 with partie_terminee := true, gagnant := none })
      else (true, s2)
  else (false, s)

/-- A move `((ligne_dep, col_dep), (ligne_arr, col_arr))`. -/
def Move : Type := (Int × Int) × (Int × Int)

instance : DecidableEq Move := by unfold Move; infer_instance

/-- All 81 cell coordinates in row-major order (`for i in range(9): for j in range(9)`). -/
def allCells : List (Int × Int) :=
  (List.range 9).flatMap
    (fun (i : Nat) => (List.range 9).map (fun (j : Nat) => ((i : Int), (j : Int))))

/-- `IA.obtenir_tous_coups_possibles`: for every cell owned by `joueur`, the
destinations produced by the same four orthogonal walks as
`obtenir_coups_valides` (textually the identical loops).  The diagonal branch
guarded by `hasattr(self, 'capture_diagonale')` is dead code — `IA.__init__`
never sets that attribute — and is therefore not part of the model. -/
def obtenir_tous_coups_possibles (plateau : Board) (joueur : Nat) : List Move :=
  allCells.flatMap (fun p =>
    if cellAt plateau p = joueur then
      (obtenir_coups_valides plateau p).map (fun d => ((p, d) : Move))
    else [])

/-- Python `float` scores as produced by the search: a rational, `float('-inf')`
or `float('inf')`. -/
inductive EVal where
  | ninf : EVal
  | fin : ℚ → EVal
  | pinf : EVal
deriving DecidableEq

namespace EVal

/-- Strict `<` on scores, as Python compares floats with infinities. -/
def blt : EVal → EVal → Bool
  | ninf, ninf => false
  | ninf, _ => true
  | fin _, ninf => false
  | fin a, fin b => decide (a < b)
  | fin _, pinf => true
  | pinf, _ => false

/-- Python `min(x, y)` (returns `x` on ties). -/
def bmin (x y : EVal) : EVal := if blt y x then y else x

/-- Python `max(x, y)` (returns `x` on ties). -/
def bmax (x y : EVal) : EVal := if blt x y then y else x

end EVal

/-- Number of nonzero cells, `np.sum(plateau != 0)`. -/
def countNonZero (b : Board) : Nat :=
  ((List.finRange 9).map
    (fun i => ((List.finRange 9).filter (fun j => b i j ≠ 0)).length)).sum

/-- `IA.count_captured`: pieces that disappeared between two positions. -/
def count_captured (b_old b_new : Board) : Int :=
  (countNonZero b_old : Int) - (countNonZero b_new : Int)

/-- `np.sum(plateau[3:6, 3:6] == v)`: pieces of value `v` in the central 3×3 block. -/
def countCentre (b : Board) (v : Nat) : Nat :=
  ((((List.range 3)).flatMap
      (fun i => (List.range 3).map (fun j => ((i + 3 : Int), (j + 3 : Int))))).filter
    (fun p => cellAt b p = v)).length

/-- The threat count shared by both evaluators (`menaces_simples` in
`evaluer_position_naive` and `menaces` in `evaluer_position` have the same
body): for every cell holding `cible`, one point per orthogonal neighbour
holding `attaquant`. -/
def menaces (b : Board) (attaquant cible : Nat) : Nat :=
  (allCells.map (fun p =>
    if cellAt b p = cible then
      (if 0 < p.2 ∧ cellAt b (p.1, p.2 - 1) = attaquant then 1 else 0) +
      (if p.2 < 8 ∧ cellAt b (p.1, p.2 + 1) = attaquant then 1 else 0) +
      (if 0 < p.1 ∧ cellAt b (p.1 - 1, p.2) = attaquant then 1 else 0) +
      (if p.1 < 8 ∧ cellAt b (p.1 + 1, p.2) = attaquant then 1 else 0)
    else 0)).sum

/-- `groupes` inside `evaluer_position`: orthogonal own-piece pairs. -/
def groupes (b : Board) (couleur : Nat) : Nat :=
  (allCells.map (fun p =>
    if cellAt b p = couleur then
      (if p.2 < 8 ∧ cellAt b (p.1, p.2 + 1) = couleur then 1 else 0) +
      (if p.1 < 8 ∧ cellAt b (p.1 + 1, p.2) = couleur then 1 else 0)
    else 0)).sum

/-- `IA.evaluer_position_naive`, with the float weights `1.0`, `0.3`, `0.5`
modelled as exact rationals. -/
def evaluer_position_naive (plateau : Board) (joueur : Nat) : ℚ :=
  let adv := 3 - joueur
  let score : ℚ := 0
  let score := score + 1 * ((countVal plateau joueur : ℚ) - (countVal plateau adv : ℚ))
  let score := score + (3 / 10) * (countCentre plateau joueur : ℚ)
  let score := score - (3 / 10) * (countCentre plateau adv : ℚ)
  let score := score + (1 / 2) * (menaces plateau joueur adv : ℚ)
  let score := score - (1 / 2) * (menaces plateau adv joueur : ℚ)
  score

/-- `IA.evaluer_position` (advanced tier), float weights as exact rationals. -/
def evaluer_position (plateau : Board) (joueur : Nat) : ℚ :=
  let adv := 3 - joueur
  let score : ℚ := 0
  let score := score + 1 * ((countVal plateau joueur : ℚ) - (countVal plateau adv : ℚ))
  let score := score + (1 / 2) * (countCentre plateau joueur : ℚ)
  let score := score - (1 / 2) * (countCentre plateau adv : ℚ)
  let score := score + (1 / 10) *
    (((obtenir_tous_coups_possibles plateau joueur).length : ℚ) -
      ((obtenir_tous_coups_possibles plateau adv).length : ℚ))
  let score := score + 1 * (menaces plateau joueur adv : ℚ)
  let score := score - 1 * (menaces plateau adv joueur : ℚ)
  let score := score + (1 / 5) *
    ((groupes plateau joueur : ℚ) - (groupes plateau adv : ℚ))
  coins.foldl (fun sc c =>
    if cellAt plateau c = joueur then sc + 3 / 10
    else if cellAt plateau c = adv then sc - 3 / 10
    else sc) score

/-- The key of `IA.order_moves`'s `score_coup`: simulate the move, count the
captures, flag a central destination. -/
def score_coup (plateau : Board) (joueur : Nat) (action : Move) : Int × Int :=
  let plateau_apres := simuler_coup plateau action.1 action.2 joueur
  let captures := count_captured plateau plateau_apres
  let centre : Int :=
    if 2 ≤ action.2.1 ∧ action.2.1 ≤ 6 ∧ 2 ≤ action.2.2 ∧ action.2.2 ≤ 6 then 1 else 0
  (captures, centre)

/-- Strict lexicographic `<` on `score_coup` keys (Python tuple comparison). -/
def lexLtKey (x y : Int × Int) : Bool :=
  decide (x.1 < y.1 ∨ (x.1 = y.1 ∧ x.2 < y.2))

/-- Insert into a descending list, after all entries with ≥ key: the stable
descending order of Python `sorted(..., key=score_coup, reverse=True)`. -/
def insertDesc (key : Move → Int × Int) (a : Move) : List Move → List Move
  | [] => [a]
  | b :: rest =>
    if lexLtKey (key b) (key a) then a :: b :: rest else b :: insertDesc key a rest

/-- `IA.order_moves`: capture-then-centrality stable descending sort. -/
def order_moves (actions : List Move) (plateau : Board) (joueur : Nat) : List Move :=
  actions.foldl (fun acc a => insertDesc (score_coup plateau joueur) a acc) []

/-- The transposition dictionary `self.transpo`, keyed by
`(_hash(plateau.tobytes()), profondeur)`; the 64-bit digest is modelled by the
board itself.  Assignment prepends, lookup finds the most recent binding. -/
def Transpo : Type := List ((Board × Nat) × EVal)

namespace Transpo

def find (t : Transpo) (k : Board × Nat) : Option EVal :=
  (List.find? (fun e => e.1 = k) t).map (·.2)

def insert (t : Transpo) (k : Board × Nat) (v : EVal) : Transpo := (k, v) :: t

end Transpo

/-- The empty transposition table of a fresh `IA` instance. -/
def emptyTranspo : Transpo := []

mutual

/-- `IA.MIN_VALUE`: plain minimax MIN node — cache lookup, depth-0/no-moves
evaluation cutoff, fold `min` over the opponent's moves, cache store.  There is
no terminal-state check in this function (unlike `AB_MIN_VALUE`). -/
def MIN_VALUE (f : Board → Nat → ℚ) (plateau : Board) (joueur : Nat)
    (profondeur : Nat) (t : Transpo) : EVal × Transpo :=
  match Transpo.find t (plateau, profondeur) with
  | some v => (v, t)
  | none =>
    match profondeur with
    | 0 => (EVal.fin (f plateau joueur), t)
    | q + 1 =>
      let actions := obtenir_tous_coups_possibles plateau (3 - joueur)
      if actions = [] then (EVal.fin (f plateau joueur), t)
      else
        let st := actions.foldl
          (fun (st : EVal × Transpo) action =>
            let r := MAX_VALUE f (simuler_coup plateau action.1 action.2 (3 - joueur))
                joueur q st.2
            (EVal.bmin st.1 r.1, r.2))
          (EVal.pinf, t)
        (st.1, Transpo.insert st.2 (plateau, q + 1) st.1)

/-- `IA.MAX_VALUE`: plain minimax MAX node, dual to `MIN_VALUE`. -/
def MAX_VALUE (f : Board → Nat → ℚ) (plateau : Board) (joueur : Nat)
    (profondeur : Nat) (t : Transpo) : EVal × Transpo :=
  match Transpo.find t (plateau, profondeur) with
  | some v => (v, t)
  | none =>
    match profondeur with
    | 0 => (EVal.fin (f plateau joueur), t)
    | q + 1 =>
      let actions := obtenir_tous_coups_possibles plateau joueur
      if actions = [] then (EVal.fin (f plateau joueur), t)
      else
        let st := actions.foldl
          (fun (st : EVal × Transpo) action =>
            let r := MIN_VALUE f (simuler_coup plateau action.1 action.2 joueur)
                joueur q st.2
            (EVal.bmax st.1 r.1, r.2))
          (EVal.ninf, t)
        (st.1, Transpo.insert st.2 (plateau, q + 1) st.1)

end

/-- Loop state of the alpha-beta folds; `pruned` freezes the state, modelling
the source's early `return` (which skips the cache store). -/
structure ABState where
  v : EVal
  bound : EVal
  t : Transpo
  pruned : Bool

mutual

/-- `IA.AB_MIN_VALUE`: cache lookup, then the terminal-state short-circuit to
`±inf`, then depth-0/no-moves evaluation, then the ordered fold with the
`v <= alpha` cutoff and running `beta`; the cache store is skipped on cutoff. -/
def AB_MIN_VALUE (f : Board → Nat → ℚ) (plateau : Board) (joueur : Nat)
    (profondeur : Nat) (alpha beta : EVal) (t : Transpo) : EVal × Transpo :=
  match Transpo.find t (plateau, profondeur) with
  | some v => (v, t)
  | none =>
    match is_terminal_state plateau with
    | some g => (if g = joueur then EVal.pinf else EVal.ninf, t)
    | none =>
      match profondeur with
      | 0 => (EVal.fin (f plateau joueur), t)
      | q + 1 =>
        let actions := obtenir_tous_coups_possibles plateau (3 - joueur)
        if actions = [] then (EVal.fin (f plateau joueur), t)
        else
          let ordered := order_moves actions plateau (3 - joueur)
          let st := ordered.foldl
            (fun (st : ABState) action =>
              if st.pruned then st
              else
                let r := AB_MAX_VALUE f
                    (simuler_coup plateau action.1 action.2 (3 - joueur))
                    joueur q alpha st.bound st.t
                let v' := EVal.bmin st.v r.1
                if ¬ EVal.blt alpha v' then
                  { v := v', bound := st.bound, t := r.2, pruned := true }
                else
                  { v := v', bound := EVal.bmin st.bound v', t := r.2, pruned := false })
            { v := EVal.pinf, bound := beta, t := t, pruned := false }
          if st.pruned then (st.v, st.t)
          else (st.v, Transpo.insert st.t (plateau, q + 1) st.v)

/-- `IA.AB_MAX_VALUE`: dual of `AB_MIN_VALUE`, with the `v >= beta` cutoff and
running `alpha`. -/
def AB_MAX_VALUE (f : Board → Nat → ℚ) (plateau : Board) (joueur : Nat)
    (profondeur : Nat) (alpha beta : EVal) (t : Transpo) : EVal × Transpo :=
  match Transpo.find t (plateau, profondeur) with
  | some v => (v, t)
  | none =>
    match is_terminal_state plateau with
    | some g => (if g = joueur then EVal.pinf else EVal.ninf, t)
    | none =>
      match profondeur with
      | 0 => (EVal.fin (f plateau joueur), t)
      | q + 1 =>
        let actions := obtenir_tous_coups_possibles plateau joueur
        if actions = [] then (EVal.fin (f plateau joueur), t)
        else
          let ordered := order_moves actions plateau joueur
          let st := ordered.foldl
            (fun (st : ABState) action =>
              if st.pruned then st
              else
                let r := AB_MIN_VALUE f
                    (simuler_coup plateau action.1 action.2 joueur)
                    joueur q st.bound beta st.t
                let v' := EVal.bmax st.v r.1
                if ¬ EVal.blt v' beta then
                  { v := v', bound := st.bound, t := r.2, pruned := true }
                else
                  { v := v', bound := EVal.bmax st.bound v', t := r.2, pruned := false })
            { v := EVal.ninf, bound := alpha, t := t, pruned := false }
          if st.pruned then (st.v, st.t)
          else (st.v, Transpo.insert st.t (plateau, q + 1) st.v)

end

/-- The configuration `IA.__init__` derives from the level string: search
depth, algorithm and evaluator tier. -/
structure IA where
  niveau : String
  profondeur_max : Nat
  utilise_alpha_beta : Bool
  evalNaive : Bool

/-- `IA.__init__`. -/
def IA.init (niveau : String) : IA :=
  if niveau = "1" then ⟨"1", 3, false, true⟩
  else if niveau = "2" then ⟨"2", 4, true, true⟩
  else if niveau = "3" then ⟨"3", 4, true, false⟩
  else if niveau = "4" then ⟨"4", 3, true, false⟩
  else ⟨niveau, 2, false, true⟩

/-- The bound `self.eval_fonction`. -/
def IA.evalF (ia : IA) : Board → Nat → ℚ :=
  if ia.evalNaive then evaluer_position_naive else evaluer_position

/-- Python `max(iterable, key=...)`: first maximum under the key; `none` models
the `ValueError` on an empty sequence (caught by `choisir_coup`'s handler). -/
def maxBy (key : Move → ℚ) : List Move → Option Move
  | [] => none
  | a :: rest => some (rest.foldl (fun best x => if key best < key x then x else best) a)

/-- `random.choice`, modelled by an externally supplied index; `none` models
the `IndexError` on an empty sequence (caught by `choisir_coup`'s handler). -/
def randomChoice (l : List Move) (idx : Nat) : Option Move :=
  if h : l = [] then none
  else some (l.get ⟨idx % l.length, Nat.mod_lt _ (List.length_pos.mpr h)⟩)

/-- The score loop shared by `choisir_coup`'s two search branches: fold the
candidate moves, keeping the best score, the list of moves tying it, and the
threaded transposition table.  `search` is the applied root call
(`MIN_VALUE` or `AB_MIN_VALUE` on the simulated board). -/
def meilleursLoop (search : Board → Transpo → EVal × Transpo) (plateau : Board)
    (joueur : Nat) (coups : List Move) (t : Transpo) : EVal × List Move × Transpo :=
  coups.foldl
    (fun (st : EVal × List Move × Transpo) d =>
      let r := search (simuler_coup plateau d.1 d.2 joueur) st.2.2
      if EVal.blt st.1 r.1 then (r.1, [d], r.2)
      else if r.1 = st.1 then (st.1, st.2.1 ++ [d], r.2)
      else (st.1, st.2.1, r.2))
    (EVal.ninf, [], t)

/-- `IA.choisir_coup`.  The unseeded global randomness is abstracted: `σ` is
the in-place `random.shuffle` (an arbitrary reordering supplied by the
caller), `pick1`/`pick2` index the two `random.choice` sites.  A `none` result
models both the explicit `return None` on an empty move list and the
`except`-handler path reached when `random.choice`/`max` raises on an empty
sequence. -/
def choisir_coup (ia : IA) (σ : List Move → List Move) (pick1 pick2 : Nat)
    (plateau : Board) (joueur : Nat) (t : Transpo) : Option Move :=
  let coups0 := obtenir_tous_coups_possibles plateau joueur
  if coups0 = [] then none
  else
    let coups := σ coups0
    let emergency : Option (Option Move) :=
      if ia.niveau = "4" then
        let static_eval := ia.evalF plateau joueur
        if (joueur = 1 ∧ static_eval < -5) ∨ (joueur = 2 ∧ 5 < static_eval) then
          some (maxBy (fun a => ia.evalF (simuler_coup plateau a.1 a.2 joueur) joueur) coups)
        else none
      else none
    match emergency with
    | some r => r
    | none =>
      let opening : Option (Option Move) :=
        if 70 < countVal plateau 0 then
          let centraux := coups.filter
            (fun c => decide (2 ≤ c.2.1 ∧ c.2.1 ≤ 6 ∧ 2 ≤ c.2.2 ∧ c.2.2 ≤ 6))
          if centraux = [] then none else some (randomChoice centraux pick1)
        else none
      match opening with
      | some r => r
      | none =>
        let profondeur :=
          if ia.niveau = "4" then
            (if 60 < countNonZero plateau then 3 else ia.profondeur_max)
          else ia.profondeur_max
        let profondeur :=
          if ia.niveau = "1" then min profondeur 2
          else if ia.niveau = "2" then min profondeur 3
          else if ia.niveau = "3" then min profondeur 3
          else profondeur
        let ordered := order_moves coups plateau joueur
        if ia.niveau = "1" then
          let st := meilleursLoop
            (fun b tt => MIN_VALUE ia.evalF b joueur (profondeur - 1) tt)
            plateau joueur ordered t
          randomChoice st.2.1 pick2
        else
          let st := meilleursLoop
            (fun b tt =>
              AB_MIN_VALUE ia.evalF b joueur (profondeur - 1) EVal.ninf EVal.pinf tt)
            plateau joueur ordered t
          randomChoice st.2.1 pick2

/-- A store of numpy arrays; a reference is an index into the store. -/
abbrev Store : Type := List Board

/-- In-place assignment to one cell of the array behind `ref`. -/
def writeCell (store : Store) (ref : Nat) (p : Int × Int) (v : Nat) : Store :=
  store.set ref (setCell ((store.get? ref).getD default) p v)

/-- Heap-level `IA.simuler_coup`: `plateau.view().copy()` allocates a fresh
array (here at index `store.length`); the relocation writes and the
capture-clearing writes all target that fresh array, never the caller's
array at `ref`. -/
def simuler_coup_heap (store : Store) (ref : Nat) (depart arrivee : Int × Int)
    (joueur : Nat) : Store × Nat :=
  let plateau := (store.get? ref).getD default
  let refNouveau := store.length
  let s1 := store ++ [plateau]
  let s2 := writeCell s1 refNouveau arrivee (cellAt plateau depart)
  let s3 := writeCell s2 refNouveau depart 0
  let nouveau := (s3.get? refNouveau).getD default
  let captures := simulerCaptures nouveau arrivee joueur
  (captures.foldl (fun st c => writeCell st refNouveau c 0) s3, refNouveau)

/-- The fresh game state built by `HasamiShogi.__init__`: initial board, black
to move, occurrence map `{initial key: 1}`, counters at zero, default options. -/
def etatInitial : GameState where
  plateau := plateauInitial
  joueur_actuel := 1
  positions_occurrence := fun k => if k = cle_position plateauInitial 1 then 1 else 0
  derniere_capture := 0
  capture_effectuee := false
  coups_valides := []
  partie_terminee := false
  gagnant := none
  capture_diagonale := false
  seuil_defaite := 2
  seuil_ecart_victoire := 3

/-!
## Concrete inputs used by counterexamples and witnesses
-/

/-- A board with two black pieces and a full white back row: black is at the
defeat threshold, so `is_terminal_state` reports a white win. -/
def plateauNoir2 : Board := boardOfRows
  [[1, 1, 0, 0, 0, 0, 0, 0, 0],
   [], [], [], [], [], [], [],
   [2, 2, 2, 2, 2, 2, 2, 2, 2]]

/-- A board with two black and two white pieces: both sides are at the defeat
threshold simultaneously. -/
def plateau22 : Board := boardOfRows
  [[1, 1, 0, 0, 0, 0, 0, 0, 0],
   [], [], [], [], [], [], [],
   [2, 2, 0, 0, 0, 0, 0, 0, 0]]

/-- Before black plays `(1,3) → (1,0)`: white pieces sit on both top corners,
with black pieces already on `(0,1)`, `(0,7)` and `(1,8)`; after the move both
top corners have both orthogonal neighbours black. -/
def plateauCoins : Board := boardOfRows
  [[2, 1, 0, 0, 0, 0, 0, 1, 2],
   [0, 0, 0, 1, 0, 0, 0, 0, 1]]

/-- The spec's concrete sandwich scenario: the mover's pieces on `(3,3)` and
`(3,5)` flank an opposing piece on `(3,4)`. -/
def plateauSandwich : Board := boardOfRows
  [[], [], [], [0, 0, 0, 1, 2, 1, 0, 0, 0]]

/-- The initial board after relocating black's `(0,4)` pawn to `(4,4)`. -/
def plateauApres04 : Board := plateauApresDeplacement plateauInitial (0, 4) (4, 4)

/-- A game state whose no-capture counter stands at 59 and whose occurrence
map already records the upcoming position key twice. -/
def etat59 : GameState := { etatInitial with
  positions_occurrence := fun k => if k = cle_position plateauApres04 2 then 2 else 0,
  derniere_capture := 59,
  coups_valides := [(4, 4)] }

/-- A game state about to produce the third occurrence of a position key. -/
def etatRep : GameState := { etatInitial with
  positions_occurrence := fun k => if k = cle_position plateauApres04 2 then 2 else 0,
  coups_valides := [(4, 4)] }

/-- A unit orthogonal direction (the four scan directions, as a predicate). -/
def dirUnitOrtho (dir : Int × Int) : Prop :=
  dir = (0, 1) ∨ dir = (1, 0) ∨ dir = (0, -1) ∨ dir = (-1, 0)

/-- A unit orthogonal or diagonal direction (all eight scan directions). -/
def dirUnit8 (dir : Int × Int) : Prop :=
  dirUnitOrtho dir ∨ dir = (-1, -1) ∨ dir = (-1, 1) ∨ dir = (1, -1) ∨ dir = (1, 1)

/-!
## Supporting lemmas about the ray walks and scans
-/

lemma twAllFront {α : Type} (p : α → Bool) (l1 l2 : List α) (h : ∀ a ∈ l1, p a) :
    (l1 ++ l2).takeWhile p = l1 ++ l2.takeWhile p := by
  induction l1 with
  | nil => simp
  | cons x xs ih =>
    have hx := h x (List.mem_cons_self x xs)
    simp only [List.cons_append, List.takeWhile_cons, hx, if_true]
    rw [ih (fun a ha => h a (List.mem_cons_of_mem x ha))]

lemma tw_mem {α : Type} (p : α → Bool) (l : List α) : ∀ (a : α),
    a ∈ l.takeWhile p ↔
      ∃ n, l.get? n = some a ∧ ∀ i, i ≤ n → ∀ c, l.get? i = some c → p c := by
  induction l with
  | nil => intro a; simp
  | cons x xs ih =>
    intro a
    by_cases hx : p x = true
    · simp only [List.takeWhile_cons, hx, if_true, List.mem_cons]
      constructor
      · rintro (rfl | h)
        · refine ⟨0, rfl, fun i hi c hc => ?_⟩
          obtain rfl : i = 0 := Nat.le_zero.mp hi
          cases hc
          exact hx
        · obtain ⟨n, hn, hall⟩ := (ih a).mp h
          refine ⟨n + 1, by simpa using hn, fun i hi c hc => ?_⟩
          cases i with
          | zero => cases hc; exact hx
          | succ j => exact hall j (by omega) c (by simpa using hc)
      · rintro ⟨n, hn, hall⟩
        cases n with
        | zero => left; cases hn; rfl
        | succ m =>
          right
          exact (ih a).mpr ⟨m, by simpa using hn,
            fun i hi c hc => hall (i + 1) (by omega) c (by simpa using hc)⟩
    · simp only [List.takeWhile_cons, hx, if_false]
      constructor
      · intro h
        exact absurd h (List.not_mem_nil a)
      · rintro ⟨n, hn, hall⟩
        exact absurd (hall 0 (Nat.zero_le n) x rfl) hx

lemma opp_ne {joueur : Nat} (hj : joueur = 1 ∨ joueur = 2) :
    3 - joueur ≠ 0 ∧ 3 - joueur ≠ joueur := by
  rcases hj with rfl | rfl <;> simp

/-- A run of opposing pieces whose scan reaches the end of the in-range cells
(the board edge) is not captured. -/
lemma scanRay_run_edge (b : Board) (joueur : Nat) (hj : joueur = 1 ∨ joueur = 2)
    (run : List (Int × Int)) : ∀ acc, (∀ c ∈ run, cellAt b c = 3 - joueur) →
      scanRay b joueur run acc = [] := by
  induction run with
  | nil => intro acc _; rfl
  | cons c rest ih =>
    intro acc h
    have hc : cellAt b c = 3 - joueur := h c (List.mem_cons_self _ _)
    have h0 := (opp_ne hj).1
    have h1 := (opp_ne hj).2
    simp only [scanRay, hc, if_neg h0, if_neg h1, if_pos rfl]
    exact ih _ (fun x hx => h x (List.mem_cons_of_mem _ hx))

/-- A run of opposing pieces followed by a cell of the mover is captured
entirely; a run followed by an empty cell is not captured at all. -/
lemma scanRay_run_closed (b : Board) (joueur : Nat) (hj : joueur = 1 ∨ joueur = 2)
    (c : Int × Int) (rest : List (Int × Int)) (run : List (Int × Int)) :
    ∀ acc, (∀ x ∈ run, cellAt b x = 3 - joueur) →
      (cellAt b c = joueur → scanRay b joueur (run ++ c :: rest) acc = acc ++ run) ∧
      (cellAt b c = 0 → scanRay b joueur (run ++ c :: rest) acc = []) := by
  induction run with
  | nil =>
    intro acc _
    have hj0 : joueur ≠ 0 := by rcases hj with rfl | rfl <;> simp
    constructor
    · intro hc
      simp [scanRay, hc, hj0]
    · intro hc
      simp [scanRay, hc]
  | cons x xs ih =>
    intro acc h
    have hx : cellAt b x = 3 - joueur := h x (List.mem_cons_self _ _)
    have h0 := (opp_ne hj).1
    have h1 := (opp_ne hj).2
    have hrest := ih (acc ++ [x]) (fun y hy => h y (List.mem_cons_of_mem _ hy))
    have hstep : scanRay b joueur ((x :: xs) ++ c :: rest) acc =
        scanRay b joueur (xs ++ c :: rest) (acc ++ [x]) := by
      simp only [List.cons_append, scanRay, hx, List.append_eq]
      rw [if_neg h0, if_neg h1]
      simp
    constructor
    · intro hc
      rw [hstep, hrest.1 hc]
      simp
    · intro hc
      rw [hstep, hrest.2 hc]

/-- Two in-range cells on one ray are at most eight steps apart. -/
lemma stepCell_spread (pos dir : Int × Int) (hdir : dirUnit8 dir) (k : Nat)
    (h0 : inB (stepCell pos dir 0)) (hk : inB (stepCell pos dir k)) : k ≤ 8 := by
  simp only [dirUnit8, dirUnitOrtho] at hdir
  rcases hdir with ((rfl | rfl | rfl | rfl) | rfl | rfl | rfl | rfl) <;>
    (simp only [stepCell, inB] at h0 hk; omega)

/-- If the first `m` stepped cells are in range, `rayCells` starts with them. -/
lemma rayCells_decomp (pos dir : Int × Int) (m : Nat) (hm : m ≤ 9)
    (hin : ∀ t, t < m → inB (stepCell pos dir t)) :
    rayCells pos dir = (List.range m).map (stepCell pos dir) ++
      (((List.range 9).map (stepCell pos dir)).drop m).takeWhile
        (fun q => decide (inB q)) := by
  unfold rayCells
  conv_lhs => rw [← List.take_append_drop m ((List.range 9).map (stepCell pos dir))]
  rw [twAllFront]
  · congr 1
    rw [← List.map_take, List.take_range, Nat.min_eq_left hm]
  · intro a ha
    rw [← List.map_take, List.take_range] at ha
    simp only [List.mem_map, List.mem_range] at ha
    obtain ⟨t, ht, rfl⟩ := ha
    exact decide_eq_true (hin t (by omega))

/-- A ray whose `n+1`-st step leaves the board consists of exactly the first
`n+1` stepped cells. -/
lemma rayCells_edge (pos dir : Int × Int) (hdir : dirUnit8 dir) (n : Nat)
    (hin : ∀ t, t ≤ n → inB (stepCell pos dir t))
    (hout : ¬ inB (stepCell pos dir (n + 1))) :
    rayCells pos dir = (List.range (n + 1)).map (stepCell pos dir) := by
  have hn : n ≤ 8 := stepCell_spread pos dir hdir n (hin 0 (Nat.zero_le n)) (hin n le_rfl)
  rw [rayCells_decomp pos dir (n + 1) (by omega) (fun t ht => hin t (by omega))]
  rcases Nat.lt_or_ge (n + 1) 9 with h9 | h9
  · rw [List.drop_eq_getElem_cons (by simpa using h9)]
    rw [List.takeWhile_cons]
    simp [hout]
  · rw [List.drop_eq_nil_of_le (by simpa using h9)]
    simp

/-- A ray whose first `n+2` steps stay on the board starts with those cells. -/
lemma rayCells_closed (pos dir : Int × Int) (hdir : dirUnit8 dir) (n : Nat)
    (hin : ∀ t, t ≤ n + 1 → inB (stepCell pos dir t)) :
    ∃ rest, rayCells pos dir =
      (List.range (n + 1)).map (stepCell pos dir) ++ stepCell pos dir (n + 1) :: rest := by
  have hn1 : n + 1 ≤ 8 :=
    stepCell_spread pos dir hdir (n + 1) (hin 0 (Nat.zero_le _)) (hin (n + 1) le_rfl)
  rw [rayCells_decomp pos dir (n + 2) (by omega) (fun t ht => hin t (by omega))]
  refine ⟨List.takeWhile (fun q => decide (inB q))
    (((List.range 9).map (stepCell pos dir)).drop (n + 2)), ?_⟩
  have hr : List.range (n + 2) = List.range (n + 1) ++ [n + 1] := by
    simpa using List.range_succ (n := n + 1)
  rw [hr, List.map_append]
  simp

lemma mem_foldl_append {α β : Type} (g : β → List α) (L : List β) (a : α) :
    ∀ init, (a ∈ L.foldl (fun acc x => acc ++ g x) init ↔ a ∈ init ∨ ∃ x ∈ L, a ∈ g x) := by
  induction L with
  | nil => intro init; simp
  | cons y ys ih =>
    intro init
    rw [List.foldl_cons, ih]
    simp only [List.mem_append, List.mem_cons]
    constructor
    · rintro ((h | h) | ⟨x, hx, hg⟩)
      · exact Or.inl h
      · exact Or.inr ⟨y, Or.inl rfl, h⟩
      · exact Or.inr ⟨x, Or.inr hx, hg⟩
    · rintro (h | ⟨x, (rfl | hx), hg⟩)
      · exact Or.inl (Or.inl h)
      · exact Or.inl (Or.inr hg)
      · exact Or.inr ⟨x, hx, hg⟩

/-- A nonempty scan result implies the scanned cell list holds a cell of the
mover (the terminator the scan broke on). -/
lemma scanRay_nonempty_own (b : Board) (joueur : Nat) (cells : List (Int × Int)) :
    ∀ acc, scanRay b joueur cells acc ≠ [] →
      ∃ j y, cells.get? j = some y ∧ cellAt b y = joueur := by
  induction cells with
  | nil => intro acc h; simp [scanRay] at h
  | cons c rest ih =>
    intro acc h
    by_cases h0 : cellAt b c = 0
    · refine absurd ?_ h
      simp only [scanRay]
      rw [if_pos h0]
    · by_cases h1 : cellAt b c = joueur
      · exact ⟨0, c, rfl, h1⟩
      · by_cases h2 : cellAt b c = 3 - joueur
        · have hstep : scanRay b joueur (c :: rest) acc =
              scanRay b joueur rest (acc ++ [c]) := by
            simp only [scanRay]
            rw [if_neg h0, if_neg h1, if_pos h2]
          rw [hstep] at h
          obtain ⟨j, y, hy, hcell⟩ := ih _ h
          exact ⟨j + 1, y, by simpa using hy, hcell⟩
        · have hstep : scanRay b joueur (c :: rest) acc =
              scanRay b joueur rest acc := by
            simp only [scanRay]
            rw [if_neg h0, if_neg h1, if_neg h2]
          rw [hstep] at h
          obtain ⟨j, y, hy, hcell⟩ := ih _ h
          exact ⟨j + 1, y, by simpa using hy, hcell⟩

/-- Every captured cell sits in the scanned list, holds an opposing piece, and
is followed (strictly later in the list) by a cell of the mover. -/
lemma scanRay_mem (b : Board) (joueur : Nat) (cells : List (Int × Int)) :
    ∀ acc x, x ∈ scanRay b joueur cells acc →
      x ∈ acc ∨ ∃ i, cells.get? i = some x ∧ cellAt b x = 3 - joueur ∧
        ∃ j, i < j ∧ ∃ y, cells.get? j = some y ∧ cellAt b y = joueur := by
  induction cells with
  | nil => intro acc x hx; simp [scanRay] at hx
  | cons c rest ih =>
    intro acc x hx
    by_cases h0 : cellAt b c = 0
    · rw [show scanRay b joueur (c :: rest) acc = [] by
        simp only [scanRay]; rw [if_pos h0]] at hx
      exact absurd hx (List.not_mem_nil x)
    · by_cases h1 : cellAt b c = joueur
      · rw [show scanRay b joueur (c :: rest) acc = acc by
          simp only [scanRay]; rw [if_neg h0, if_pos h1]] at hx
        exact Or.inl hx
      · by_cases h2 : cellAt b c = 3 - joueur
        · rw [show scanRay b joueur (c :: rest) acc =
              scanRay b joueur rest (acc ++ [c]) by
            simp only [scanRay]; rw [if_neg h0, if_neg h1, if_pos h2]] at hx
          rcases ih (acc ++ [c]) x hx with hmem | ⟨i, hi, hcx, j, hij, y, hy, hcy⟩
          · rcases List.mem_append.mp hmem with h | h
            · exact Or.inl h
            · have hxc : x = c := by simpa using h
              subst hxc
              have hne : scanRay b joueur rest (acc ++ [x]) ≠ [] := fun he => by
                rw [he] at hx
                exact absurd hx (List.not_mem_nil x)
              obtain ⟨j, y, hy, hcy⟩ := scanRay_nonempty_own b joueur rest _ hne
              exact Or.inr ⟨0, rfl, h2, j + 1, by omega, y, by simpa using hy, hcy⟩
          · exact Or.inr ⟨i + 1, by simpa using hi, hcx, j + 1, by omega, y,
              by simpa using hy, hcy⟩
        · rw [show scanRay b joueur (c :: rest) acc = scanRay b joueur rest acc by
            simp only [scanRay]; rw [if_neg h0, if_neg h1, if_neg h2]] at hx
          rcases ih acc x hx with hmem | ⟨i, hi, hcx, j, hij, y, hy, hcy⟩
          · exact Or.inl hmem
          · exact Or.inr ⟨i + 1, by simpa using hi, hcx, j + 1, by omega, y,
              by simpa using hy, hcy⟩

/-- The `k`-th in-range ray cell is the `k`-th stepped cell. -/
lemma rayCells_get? (pos dir : Int × Int) (k : Nat) (z : Int × Int)
    (h : (rayCells pos dir).get? k = some z) :
    z = stepCell pos dir k ∧ inB z := by
  obtain ⟨hk, -⟩ := List.get?_eq_some.mp h
  obtain ⟨t, ht⟩ := List.takeWhile_prefix
    (l := (List.range 9).map (stepCell pos dir)) (p := fun q => decide (inB q))
  have h9 : k < 9 := by
    have hle : (rayCells pos dir).length ≤ 9 := by
      have := ( List.takeWhile_prefix
        (l := (List.range 9).map (stepCell pos dir))
        (p := fun q => decide (inB q))).length_le
      simpa [rayCells] using this
    omega
  have hfull : ((List.range 9).map (stepCell pos dir)).get? k = some z := by
    rw [← ht]
    have hk' : k < (((List.range 9).map (stepCell pos dir)).takeWhile
        (fun q => decide (inB q))).length := by
      simpa [rayCells] using hk
    rw [List.get?_append hk']
    simpa [rayCells] using h
  rw [List.get?_map, List.get?_range h9] at hfull
  have hz : stepCell pos dir k = z := by simpa using hfull
  refine ⟨hz.symm, ?_⟩
  have hmem : z ∈ rayCells pos dir := List.get?_mem h
  have := List.mem_takeWhile_imp (by simpa [rayCells] using hmem)
  simpa using this

/-- A corner can only be reached scanning towards the board edge, so the cell
one further step along the ray is off the board. -/
lemma corner_next_out (pos dir : Int × Int) (hpos : inB pos) (hdir : dirUnit8 dir)
    (i : Nat) (hc : stepCell pos dir i ∈ coins) : ¬ inB (stepCell pos dir (i + 1)) := by
  simp only [dirUnit8, dirUnitOrtho] at hdir
  simp only [coins, List.mem_cons, List.mem_singleton, List.not_mem_nil, or_false] at hc
  obtain ⟨hp1, hp2, hp3, hp4⟩ := hpos
  rcases hdir with ((rfl | rfl | rfl | rfl) | rfl | rfl | rfl | rfl) <;>
    rcases hc with hc | hc | hc | hc <;>
    (simp only [stepCell, inB, Prod.mk.injEq] at hc ⊢; omega)

/-- Ray scans never capture a corner cell: the terminating cell of the mover
would have to lie beyond the board edge. -/
lemma rayCaptures_no_corner (b : Board) (joueur : Nat) (pos : Int × Int)
    (hpos : inB pos) (dir : Int × Int) (hdir : dirUnit8 dir) (c : Int × Int)
    (hc : c ∈ coins) : c ∉ rayCaptures b joueur pos dir := by
  intro hmem
  rcases scanRay_mem b joueur (rayCells pos dir) [] c hmem with
    h | ⟨i, hi, -, j, hij, y, hy, -⟩
  · exact absurd h (List.not_mem_nil c)
  · obtain ⟨hc_eq, -⟩ := rayCells_get? pos dir i c hi
    obtain ⟨hjlen, -⟩ := List.get?_eq_some.mp hy
    have hi1len : i + 1 < (rayCells pos dir).length := by omega
    have hz := List.get?_eq_get hi1len
    obtain ⟨hz_eq, hz_in⟩ := rayCells_get? pos dir (i + 1) _ hz
    exact corner_next_out pos dir hpos hdir i (hc_eq ▸ hc) (hz_eq ▸ hz_in)

/-- Membership in the ray-scan part of `verifier_capture`. -/
lemma mem_capturesClassiques (cd : Bool) (b : Board) (joueur : Nat) (pos : Int × Int)
    (x : Int × Int) :
    x ∈ capturesClassiques cd b joueur pos ↔
      ∃ dir, (dir ∈ dirsOrtho ∨ (cd = true ∧ dir ∈ dirsDiag)) ∧
        x ∈ rayCaptures b joueur pos dir := by
  unfold capturesClassiques
  cases cd with
  | false =>
    simp only [Bool.false_eq_true, if_false]
    rw [mem_foldl_append]
    simp
  | true =>
    simp only [if_true]
    rw [mem_foldl_append, mem_foldl_append]
    simp only [List.not_mem_nil, false_or, eq_self_iff_true, true_and]
    constructor
    · rintro (⟨d, hd, hx⟩ | ⟨d, hd, hx⟩)
      · exact ⟨d, Or.inl hd, hx⟩
      · exact ⟨d, Or.inr hd, hx⟩
    · rintro ⟨d, hd | hd, hx⟩
      · exact Or.inl ⟨d, hd, hx⟩
      · exact Or.inr ⟨d, hd, hx⟩

/-- Membership in `IA.simuler_coup`'s capture list. -/
lemma mem_simulerCaptures (b : Board) (pos : Int × Int) (joueur : Nat) (x : Int × Int) :
    x ∈ simulerCaptures b pos joueur ↔
      ∃ dir ∈ dirsCoups, x ∈ rayCaptures b joueur pos dir := by
  unfold simulerCaptures
  rw [mem_foldl_append]
  simp

lemma mem_allCells (o : Int × Int) : o ∈ allCells ↔ inB o := by
  unfold allCells inB
  constructor
  · intro h
    rw [List.mem_flatMap] at h
    obtain ⟨i, hi, h⟩ := h
    rw [List.mem_map] at h
    obtain ⟨j, hj, rfl⟩ := h
    rw [List.mem_range] at hi hj
    exact ⟨Int.natCast_nonneg i, by show (i : Int) < 9; exact_mod_cast hi,
      Int.natCast_nonneg j, by show (j : Int) < 9; exact_mod_cast hj⟩
  · intro h
    obtain ⟨h1, h2, h3, h4⟩ := h
    rw [List.mem_flatMap]
    refine ⟨o.1.toNat, ?_, ?_⟩
    · rw [List.mem_range]
      omega
    · rw [List.mem_map]
      refine ⟨o.2.toNat, ?_, ?_⟩
      · rw [List.mem_range]
        omega
      · rw [Int.toNat_of_nonneg h1, Int.toNat_of_nonneg h3]

lemma mem_obtenir_coups_valides (b : Board) (o d : Int × Int) :
    d ∈ obtenir_coups_valides b o ↔
      ∃ dir ∈ dirsCoups,
        d ∈ (rayCells o dir).takeWhile (fun q => decide (cellAt b q = 0)) := by
  unfold obtenir_coups_valides
  rw [mem_foldl_append]
  simp

/-- The reachable empty cells along one ray: the destinations are exactly the
stepped cells whose whole prefix (themselves included) is in range and
empty. -/
lemma mem_ray_moves (b : Board) (o dir : Int × Int) (hdir : dirUnit8 dir)
    (d : Int × Int) :
    d ∈ (rayCells o dir).takeWhile (fun q => decide (cellAt b q = 0)) ↔
      ∃ n : Nat, d = stepCell o dir n ∧
        ∀ t, t ≤ n → inB (stepCell o dir t) ∧ cellAt b (stepCell o dir t) = 0 := by
  unfold rayCells
  rw [List.takeWhile_takeWhile, tw_mem]
  constructor
  · rintro ⟨n, hn, hall⟩
    have h9 : n < 9 := by
      by_contra h
      rw [List.get?_map, List.get?_eq_none.mpr (by simpa using h)] at hn
      exact Option.noConfusion hn
    have hd : d = stepCell o dir n := by
      rw [List.get?_map, List.get?_range h9] at hn
      simpa [eq_comm] using hn
    refine ⟨n, hd, fun t ht => ?_⟩
    have hget : ((List.range 9).map (stepCell o dir)).get? t =
        some (stepCell o dir t) := by
      rw [List.get?_map, List.get?_range (by omega)]
      rfl
    have := hall t ht _ hget
    simp only [decide_eq_true_eq] at this
    exact ⟨this.2, this.1⟩
  · rintro ⟨n, rfl, hforall⟩
    have h9 : n < 9 := by
      have := stepCell_spread o dir hdir n (hforall 0 (Nat.zero_le n)).1
        (hforall n le_rfl).1
      omega
    refine ⟨n, ?_, fun i hi c hc => ?_⟩
    · rw [List.get?_map, List.get?_range h9]
      rfl
    · rw [List.get?_map, List.get?_range (by omega)] at hc
      obtain rfl : stepCell o dir i = c := by simpa using hc
      have h := hforall i hi
      simp only [decide_eq_true_eq]
      exact ⟨h.2, h.1⟩

lemma writeCell_length (s : Store) (r : Nat) (p : Int × Int) (v : Nat) :
    (writeCell s r p v).length = s.length := by
  simp [writeCell]

lemma writeCell_frame (s : Store) (r i : Nat) (hne : r ≠ i) (p : Int × Int) (v : Nat) :
    (writeCell s r p v).get? i = s.get? i := by
  unfold writeCell
  exact List.get?_set_ne _ _ hne

lemma writeCell_read (s : Store) (r : Nat) (hr : r < s.length) (p : Int × Int) (v : Nat) :
    (writeCell s r p v).get? r = some (setCell ((s.get? r).getD default) p v) := by
  unfold writeCell
  exact List.get?_set_eq_of_lt _ hr

lemma foldl_writeCell_frame (r : Nat) (cs : List (Int × Int)) :
    ∀ (s : Store) (i : Nat), r ≠ i →
      (cs.foldl (fun st c => writeCell st r c 0) s).get? i = s.get? i := by
  induction cs with
  | nil => intro s i _; rfl
  | cons c rest ih =>
    intro s i hne
    rw [List.foldl_cons, ih _ i hne, writeCell_frame s r i hne]

lemma foldl_writeCell_read (r : Nat) (cs : List (Int × Int)) :
    ∀ (s : Store), r < s.length →
      (cs.foldl (fun st c => writeCell st r c 0) s).get? r =
        some (cs.foldl (fun bb c => setCell bb c 0) ((s.get? r).getD default)) := by
  induction cs with
  | nil =>
    intro s hr
    rw [List.foldl_nil, List.foldl_nil, List.get?_eq_get hr]
    rfl
  | cons c rest ih =>
    intro s hr
    rw [List.foldl_cons, List.foldl_cons,
      ih _ (by rw [writeCell_length]; exact hr), writeCell_read s r hr]
    rfl

lemma EVal.eq_ninf_of_not_blt (r : EVal) (h : EVal.blt EVal.ninf r = false) :
    r = EVal.ninf := by
  cases r <;> simp [EVal.blt] at h ⊢

lemma mem_insertDesc (key : Move → Int × Int) (a x : Move) (l : List Move) :
    x ∈ insertDesc key a l ↔ x = a ∨ x ∈ l := by
  induction l with
  | nil => simp [insertDesc]
  | cons b rest ih =>
    unfold insertDesc
    by_cases h : lexLtKey (key b) (key a)
    · simp [h]
    · simp only [h, if_false, Bool.false_eq_true, List.mem_cons, ih]
      constructor
      · rintro (rfl | h | h)
        · exact Or.inr (Or.inl rfl)
        · exact Or.inl h
        · exact Or.inr (Or.inr h)
      · rintro (rfl | rfl | h)
        · exact Or.inr (Or.inl rfl)
        · exact Or.inl rfl
        · exact Or.inr (Or.inr h)

lemma mem_order_moves_foldl (key : Move → Int × Int) (actions : List Move) :
    ∀ (init : List Move) (x : Move),
      x ∈ actions.foldl (fun acc a => insertDesc key a acc) init ↔
        x ∈ init ∨ x ∈ actions := by
  induction actions with
  | nil => intro init x; simp
  | cons a rest ih =>
    intro init x
    rw [List.foldl_cons, ih, mem_insertDesc]
    constructor
    · rintro ((rfl | h) | h)
      · exact Or.inr (List.mem_cons_self _ _)
      · exact Or.inl h
      · exact Or.inr (List.mem_cons_of_mem a h)
    · rintro (h | h)
      · exact Or.inl (Or.inr h)
      · rcases List.mem_cons.mp h with rfl | h
        · exact Or.inl (Or.inl rfl)
        · exact Or.inr h

lemma mem_order_moves (actions : List Move) (plateau : Board) (joueur : Nat) (x : Move) :
    x ∈ order_moves actions plateau joueur ↔ x ∈ actions := by
  unfold order_moves
  rw [mem_order_moves_foldl]
  simp

lemma order_moves_ne_nil (actions : List Move) (plateau : Board) (joueur : Nat)
    (h : actions ≠ []) : order_moves actions plateau joueur ≠ [] := by
  obtain ⟨a, rest, rfl⟩ := List.exists_cons_of_ne_nil h
  intro hcon
  have : a ∈ order_moves (a :: rest) plateau joueur :=
    (mem_order_moves _ _ _ a).mpr (List.mem_cons_self a rest)
  rw [hcon] at this
  exact absurd this (List.not_mem_nil a)

lemma maxBy_foldl_mem (key : Move → ℚ) (l : List Move) :
    ∀ a, (l.foldl (fun best x => if key best < key x then x else best) a) ∈ a :: l := by
  induction l with
  | nil => intro a; simp
  | cons x rest ih =>
    intro a
    rw [List.foldl_cons]
    by_cases h : key a < key x
    · rw [if_pos h]
      have := ih x
      rcases List.mem_cons.mp this with h' | h'
      · rw [h']
        simp
      · exact List.mem_cons_of_mem _ (List.mem_cons_of_mem _ h')
    · rw [if_neg h]
      have := ih a
      rcases List.mem_cons.mp this with h' | h'
      · rw [h']
        simp
      · exact List.mem_cons_of_mem _ (List.mem_cons_of_mem _ h')

lemma maxBy_spec (key : Move → ℚ) (l : List Move) (h : l ≠ []) :
    ∃ m, maxBy key l = some m ∧ m ∈ l := by
  obtain ⟨a, rest, rfl⟩ := List.exists_cons_of_ne_nil h
  exact ⟨_, rfl, maxBy_foldl_mem key rest a⟩

lemma randomChoice_spec (l : List Move) (idx : Nat) (h : l ≠ []) :
    ∃ m, randomChoice l idx = some m ∧ m ∈ l := by
  unfold randomChoice
  rw [dif_neg h]
  exact ⟨_, rfl, List.get_mem _ _ _⟩

/-- One step of `choisir_coup`'s best-score loop: the new tying list draws
from the old one and the new move. -/
lemma meilleursLoop_step_sub (v : EVal) (r : EVal × Transpo) (ml : List Move)
    (d x : Move)
    (hx : x ∈ (if EVal.blt v r.1 then (r.1, [d], r.2)
      else if r.1 = v then (v, ml ++ [d], r.2)
      else (v, ml, r.2) : EVal × List Move × Transpo).2.1) :
    x ∈ ml ∨ x = d := by
  by_cases hlt : EVal.blt v r.1
  · rw [if_pos hlt] at hx
    exact Or.inr (by simpa using hx)
  · rw [if_neg hlt] at hx
    by_cases heq : r.1 = v
    · rw [if_pos heq] at hx
      rcases List.mem_append.mp hx with h | h
      · exact Or.inl h
      · exact Or.inr (by simpa using h)
    · rw [if_neg heq] at hx
      exact Or.inl hx

/-- One step of the best-score loop keeps the tying list nonempty, and makes
it nonempty from the initial `(-inf, [])` state (a score can never compare
strictly below `-inf`, so the silent third branch is unreachable there). -/
lemma meilleursLoop_step_ne (v : EVal) (r : EVal × Transpo) (ml : List Move) (d : Move)
    (h : ml ≠ [] ∨ v = EVal.ninf) :
    (if EVal.blt v r.1 then (r.1, [d], r.2)
      else if r.1 = v then (v, ml ++ [d], r.2)
      else (v, ml, r.2) : EVal × List Move × Transpo).2.1 ≠ [] := by
  by_cases hlt : EVal.blt v r.1
  · rw [if_pos hlt]
    simp
  · rw [if_neg hlt]
    by_cases heq : r.1 = v
    · rw [if_pos heq]
      simp
    · rw [if_neg heq]
      rcases h with h | h
      · exact h
      · exfalso
        rw [h] at hlt heq
        exact heq (EVal.eq_ninf_of_not_blt _ (by simpa using hlt))

lemma meilleursLoop_foldl_spec (search : Board → Transpo → EVal × Transpo)
    (plateau : Board) (joueur : Nat) (coups : List Move) :
    ∀ (st0 : EVal × List Move × Transpo),
      (∀ x, x ∈ (coups.foldl
          (fun (st : EVal × List Move × Transpo) d =>
            let r := search (simuler_coup plateau d.1 d.2 joueur) st.2.2
            if EVal.blt st.1 r.1 then (r.1, [d], r.2)
            else if r.1 = st.1 then (st.1, st.2.1 ++ [d], r.2)
            else (st.1, st.2.1, r.2)) st0).2.1 →
        x ∈ st0.2.1 ∨ x ∈ coups) ∧
      ((st0.2.1 ≠ [] ∨ (st0.1 = EVal.ninf ∧ coups ≠ [])) →
        (coups.foldl
          (fun (st : EVal × List Move × Transpo) d =>
            let r := search (simuler_coup plateau d.1 d.2 joueur) st.2.2
            if EVal.blt st.1 r.1 then (r.1, [d], r.2)
            else if r.1 = st.1 then (st.1, st.2.1 ++ [d], r.2)
            else (st.1, st.2.1, r.2)) st0).2.1 ≠ []) := by
  induction coups with
  | nil =>
    intro st0
    refine ⟨fun x hx => Or.inl hx, ?_⟩
    rintro (h | ⟨-, h⟩)
    · exact h
    · exact absurd rfl h
  | cons d rest ih =>
    intro st0
    rw [List.foldl_cons]
    constructor
    · intro x hx
      rcases (ih _).1 x hx with h | h
      · rcases meilleursLoop_step_sub st0.1
          (search (simuler_coup plateau d.1 d.2 joueur) st0.2.2) st0.2.1 d x h with
          h' | rfl
        · exact Or.inl h'
        · exact Or.inr (List.mem_cons_self _ _)
      · exact Or.inr (List.mem_cons_of_mem d h)
    · intro h
      refine (ih _).2 (Or.inl ?_)
      refine meilleursLoop_step_ne st0.1
        (search (simuler_coup plateau d.1 d.2 joueur) st0.2.2) st0.2.1 d ?_
      rcases h with h | ⟨h, -⟩
      · exact Or.inl h
      · exact Or.inr h

lemma meilleursLoop_spec (search : Board → Transpo → EVal × Transpo) (plateau : Board)
    (joueur : Nat) (coups : List Move) (t : Transpo) :
    (∀ x, x ∈ (meilleursLoop search plateau joueur coups t).2.1 → x ∈ coups) ∧
    (coups ≠ [] → (meilleursLoop search plateau joueur coups t).2.1 ≠ []) := by
  unfold meilleursLoop
  have h := meilleursLoop_foldl_spec search plateau joueur coups (EVal.ninf, [], t)
  refine ⟨fun x hx => ?_, fun hne => h.2 (Or.inr ⟨rfl, hne⟩)⟩
  rcases h.1 x hx with hc | hc
  · exact absurd hc (List.not_mem_nil x)
  · exact hc

/-!
## Claim theorems
-/

/-- **C1** (code_bug evidence).  The spec asserts that plain minimax and
alpha-beta compute the same root value from empty transposition tables with
the same evaluator and move generator.  The code violates this:
`AB_MIN_VALUE` short-circuits on `is_terminal_state` and returns `±inf`, while
`MIN_VALUE` has no terminal check and returns the finite evaluation.  On
`plateauNoir2` (black at the defeat threshold), searching for white at depth
0, alpha-beta returns `+inf` and minimax returns the finite naive evaluation,
so the two root values differ. -/
theorem minimax_alphabeta_root_divergence :
    (MIN_VALUE evaluer_position_naive plateauNoir2 2 0 emptyTranspo).1 =
      EVal.fin (evaluer_position_naive plateauNoir2 2) ∧
    (AB_MIN_VALUE evaluer_position_naive plateauNoir2 2 0 EVal.ninf EVal.pinf
        emptyTranspo).1 = EVal.pinf ∧
    (MIN_VALUE evaluer_position_naive plateauNoir2 2 0 emptyTranspo).1 ≠
      (AB_MIN_VALUE evaluer_position_naive plateauNoir2 2 0 EVal.ninf EVal.pinf
        emptyTranspo).1 := by
  have h1 : (MIN_VALUE evaluer_position_naive plateauNoir2 2 0 emptyTranspo).1 =
      EVal.fin (evaluer_position_naive plateauNoir2 2) := rfl
  have h2 : (AB_MIN_VALUE evaluer_position_naive plateauNoir2 2 0 EVal.ninf EVal.pinf
      emptyTranspo).1 = EVal.pinf := by decide
  refine ⟨h1, h2, ?_⟩
  rw [h1, h2]
  intro h
  exact EVal.noConfusion h

/-- **C4** (counterexample).  The claim says legal-move generation "returns no
moves when the queried origin cell is empty or owned by the opponent".
`obtenir_coups_valides` never inspects the origin's content: queried on the
empty cell `(4,4)` of the initial board it returns a nonempty move list. -/
theorem legal_moves_counterexample :
    cellAt plateauInitial (4, 4) = 0 ∧
    obtenir_coups_valides plateauInitial (4, 4) ≠ [] := by decide

/-- **C4** (amended).  `obtenir_coups_valides` returns, for any queried cell
regardless of its content (the callers filter origins), exactly the reachable
empty cells along the four orthogonal rays: a destination is returned iff it
is a stepped cell on one ray with every cell up to and including it in range
and empty — so no returned destination is occupied and none lies beyond an
occupied cell.  `obtenir_tous_coups_possibles` pairs exactly the on-board
origins owned by the moving side with those destinations, so at the all-moves
level no move has an empty or opponent origin. -/
theorem legal_moves_spec (b : Board) (joueur : Nat) (o d : Int × Int) :
    (((o, d) : Move) ∈ obtenir_tous_coups_possibles b joueur ↔
      inB o ∧ cellAt b o = joueur ∧ d ∈ obtenir_coups_valides b o) ∧
    (d ∈ obtenir_coups_valides b o ↔
      ∃ dir, dirUnitOrtho dir ∧ ∃ n : Nat, d = stepCell o dir n ∧
        ∀ t, t ≤ n → inB (stepCell o dir t) ∧ cellAt b (stepCell o dir t) = 0) ∧
    (d ∈ obtenir_coups_valides b o → inB d ∧ cellAt b d = 0) := by
  have hdirs : ∀ dir ∈ dirsCoups, dirUnit8 dir := by
    intro dir hdir
    simp only [dirsCoups, List.mem_cons, List.mem_singleton, List.not_mem_nil,
      or_false] at hdir
    rcases hdir with rfl | rfl | rfl | rfl <;>
      (simp only [dirUnit8, dirUnitOrtho]; decide)
  have hray : d ∈ obtenir_coups_valides b o ↔
      ∃ dir, dirUnitOrtho dir ∧ ∃ n : Nat, d = stepCell o dir n ∧
        ∀ t, t ≤ n → inB (stepCell o dir t) ∧ cellAt b (stepCell o dir t) = 0 := by
    rw [mem_obtenir_coups_valides]
    constructor
    · rintro ⟨dir, hdir, hd⟩
      have hortho : dirUnitOrtho dir := by
        simp only [dirsCoups, List.mem_cons, List.mem_singleton, List.not_mem_nil,
          or_false] at hdir
        rcases hdir with rfl | rfl | rfl | rfl <;>
          (simp only [dirUnitOrtho]; decide)
      obtain ⟨n, hn, hall⟩ := (mem_ray_moves b o dir (Or.inl hortho) d).mp hd
      exact ⟨dir, hortho, n, hn, hall⟩
    · rintro ⟨dir, hortho, n, hn, hall⟩
      have hdir : dir ∈ dirsCoups := by
        rcases hortho with rfl | rfl | rfl | rfl <;> simp [dirsCoups]
      exact ⟨dir, hdir, (mem_ray_moves b o dir (Or.inl hortho) d).mpr ⟨n, hn, hall⟩⟩
  refine ⟨?_, hray, ?_⟩
  · unfold obtenir_tous_coups_possibles
    rw [List.mem_flatMap]
    constructor
    · rintro ⟨p, hp, hmem⟩
      by_cases hc : cellAt b p = joueur
      · rw [if_pos hc] at hmem
        rw [List.mem_map] at hmem
        obtain ⟨d', hd', heq⟩ := hmem
        have h1 : p = o := congrArg Prod.fst heq
        have h2 : d' = d := congrArg Prod.snd heq
        subst h1
        subst h2
        exact ⟨(mem_allCells p).mp hp, hc, hd'⟩
      · rw [if_neg hc] at hmem
        exact absurd hmem (List.not_mem_nil _)
    · rintro ⟨hin, hc, hd⟩
      refine ⟨o, (mem_allCells o).mpr hin, ?_⟩
      rw [if_pos hc, List.mem_map]
      exact ⟨d, hd, rfl⟩
  · intro hd
    obtain ⟨dir, -, n, rfl, hall⟩ := hray.mp hd
    exact ⟨(hall n le_rfl).1, (hall n le_rfl).2⟩

/-- Witness for `legal_moves_spec`: on the initial board black's `(0,4)` pawn
may slide to `(4,4)`, and that destination is in range and empty. -/
theorem legal_moves_spec_witness :
    ((((0, 4), (4, 4)) : Move) ∈ obtenir_tous_coups_possibles plateauInitial 1) ∧
    inB ((4 : Int), (4 : Int)) ∧ cellAt plateauInitial (4, 4) = 0 := by
  have h := legal_moves_spec plateauInitial 1 (0, 4) (4, 4)
  have h2 : inB ((0 : Int), (4 : Int)) ∧ cellAt plateauInitial (0, 4) = 1 ∧
      ((4 : Int), (4 : Int)) ∈ obtenir_coups_valides plateauInitial (0, 4) := by decide
  exact ⟨h.1.mpr h2, h.2.2 h2.2.2⟩

/-- **C5** (counterexample).  The claim says that whenever a side's piece
count is at or below the defeat threshold, the *opposite* side is reported as
winner.  On `plateau22` both sides hold exactly 2 pieces; white's count is at
the threshold, yet neither `is_terminal_state` nor `verifier_victoire`
reports black (`1`) — both report white because the black-side check runs
first. -/
theorem verifier_victoire_counterexample :
    countVal plateau22 2 ≤ 2 ∧
    is_terminal_state plateau22 = some 2 ∧
    is_terminal_state plateau22 ≠ some 1 ∧
    verifier_victoire 2 3 plateau22 = some 2 ∧
    verifier_victoire 2 3 plateau22 ≠ some 1 := by decide

/-- **C5** (amended).  The terminal check is an ordered cascade on the two
piece counts: black at/below the defeat threshold reports white; otherwise
white at/below it reports black; otherwise a differential at/above the margin
reports the side with more pieces; otherwise no winner.  `is_terminal_state`
is this cascade with the default thresholds 2 and 3. -/
theorem verifier_victoire_spec (seuil marge : Nat) (b : Board) :
    (is_terminal_state b = verifier_victoire 2 3 b) ∧
    (countVal b 1 ≤ seuil → verifier_victoire seuil marge b = some 2) ∧
    (seuil < countVal b 1 → countVal b 2 ≤ seuil →
      verifier_victoire seuil marge b = some 1) ∧
    (seuil < countVal b 1 → seuil < countVal b 2 →
      marge ≤ ((countVal b 1 : Int) - (countVal b 2 : Int)).natAbs →
      verifier_victoire seuil marge b =
        (if countVal b 2 < countVal b 1 then some 1 else some 2)) ∧
    (seuil < countVal b 1 → seuil < countVal b 2 →
      ((countVal b 1 : Int) - (countVal b 2 : Int)).natAbs < marge →
      verifier_victoire seuil marge b = none) := by
  refine ⟨?_, ?_, ?_, ?_, ?_⟩
  · simp only [is_terminal_state, verifier_victoire]
  · intro h1
    simp only [verifier_victoire]
    rw [if_pos h1]
  · intro h1 h2
    simp only [verifier_victoire]
    rw [if_neg (by omega), if_pos h2]
  · intro h1 h2 h3
    simp only [verifier_victoire]
    rw [if_neg (by omega), if_neg (by omega), if_pos h3]
  · intro h1 h2 h3
    simp only [verifier_victoire]
    rw [if_neg (by omega), if_neg (by omega), if_neg (by omega)]

/-- Witness for `verifier_victoire_spec`: on the initial board (9 pieces per
side, differential 0) the last branch applies and no winner is reported. -/
theorem verifier_victoire_spec_witness :
    2 < countVal plateauInitial 1 ∧ 2 < countVal plateauInitial 2 ∧
    ((countVal plateauInitial 1 : Int) - (countVal plateauInitial 2 : Int)).natAbs < 3 ∧
    verifier_victoire 2 3 plateauInitial = none :=
  ⟨by decide, by decide, by decide,
    (verifier_victoire_spec 2 3 plateauInitial).2.2.2.2 (by decide) (by decide) (by decide)⟩

/-- **C10**.  A destination absent from the stored `coups_valides` list makes
`deplacer_pion` return `False` and leave every component of the game state —
board, side to move, counters, occurrence map, terminal flag, winner —
exactly as it was. -/
theorem deplacer_pion_rejet (s : GameState) (depart arrivee : Int × Int)
    (h : arrivee ∉ s.coups_valides) :
    deplacer_pion s depart arrivee = (false, s) := by
  unfold deplacer_pion
  rw [if_neg h]

/-- Witness for `deplacer_pion_rejet`: the fresh game state stores no valid
moves, so any destination is rejected and the state survives unchanged. -/
theorem deplacer_pion_rejet_witness :
    ((4, 4) ∉ etatInitial.coups_valides) ∧
    deplacer_pion etatInitial (0, 4) (4, 4) = (false, etatInitial) := by
  have h : ((4 : Int), (4 : Int)) ∉ etatInitial.coups_valides := by
    simp [etatInitial]
  exact ⟨h, deplacer_pion_rejet etatInitial (0, 4) (4, 4) h⟩

/-- **C6** (counterexample).  The claim says a position key that has occurred
only twice does not terminate the game.  From `etat59` (counter at 59), the
captureless move `(0,4) → (4,4)` terminates the game through the 60-half-move
rule while the resulting position key stands at only two occurrences (the
60-rule branch returns before the occurrence map is updated). -/
theorem repetition_counterexample :
    etat59.partie_terminee = false ∧
    (deplacer_pion etat59 (0, 4) (4, 4)).2.positions_occurrence
      (cleApresCoup etat59 (0, 4) (4, 4)) = 2 ∧
    (deplacer_pion etat59 (0, 4) (4, 4)).2.partie_terminee = true ∧
    (deplacer_pion etat59 (0, 4) (4, 4)).2.gagnant = none := by decide

/-- **C6** (amended).  Provided the 60-half-move rule does not fire on this
move (otherwise the game ends in a draw without the occurrence map being
updated), a successful `deplacer_pion` increments the occurrence count of the
resulting position key; a count reaching three marks the game terminated with
no winner, while a count still below three leaves the terminal flag and the
winner as they were. -/
theorem repetition_detection (s : GameState) (depart arrivee : Int × Int)
    (hv : arrivee ∈ s.coups_valides)
    (h60 : (if (capturesApres s depart arrivee).isEmpty then s.derniere_capture + 1 else 0)
      < 60) :
    ((deplacer_pion s depart arrivee).2.positions_occurrence
        (cleApresCoup s depart arrivee) =
      s.positions_occurrence (cleApresCoup s depart arrivee) + 1) ∧
    (3 ≤ s.positions_occurrence (cleApresCoup s depart arrivee) + 1 →
      (deplacer_pion s depart arrivee).2.partie_terminee = true ∧
      (deplacer_pion s depart arrivee).2.gagnant = none) ∧
    (s.positions_occurrence (cleApresCoup s depart arrivee) + 1 < 3 →
      (deplacer_pion s depart arrivee).2.partie_terminee = s.partie_terminee ∧
      (deplacer_pion s depart arrivee).2.gagnant = s.gagnant) := by
  simp only [List.isEmpty_iff] at h60
  have hneg : ¬ 60 ≤
      (if capturesApres s depart arrivee = [] then s.derniere_capture + 1 else 0) := by
    omega
  by_cases h3 : 3 ≤ s.positions_occurrence (cleApresCoup s depart arrivee) + 1
  · simp [deplacer_pion, hv, hneg, h3]
  · simp [deplacer_pion, hv, hneg, h3]

/-- Witness for `repetition_detection`: from `etatRep` the move `(0,4) → (4,4)`
produces the third occurrence of its position key and ends the game in a
draw. -/
theorem repetition_detection_witness :
    ((4, 4) ∈ etatRep.coups_valides) ∧
    (3 ≤ etatRep.positions_occurrence (cleApresCoup etatRep (0, 4) (4, 4)) + 1) ∧
    (deplacer_pion etatRep (0, 4) (4, 4)).2.partie_terminee = true ∧
    (deplacer_pion etatRep (0, 4) (4, 4)).2.gagnant = none := by
  have hv : ((4 : Int), (4 : Int)) ∈ etatRep.coups_valides := by decide
  have h60 : (if (capturesApres etatRep (0, 4) (4, 4)).isEmpty then
      etatRep.derniere_capture + 1 else 0) < 60 := by decide
  have h3 : 3 ≤ etatRep.positions_occurrence (cleApresCoup etatRep (0, 4) (4, 4)) + 1 := by
    decide
  exact ⟨hv, h3, (repetition_detection etatRep (0, 4) (4, 4) hv h60).2.1 h3⟩

/-- **C7**.  For a valid destination: if `verifier_capture` captures nothing
and the no-capture counter already stands at 59, the 60th consecutive
captureless half-move terminates the game with no winner (no piece-count
condition participates); any capture resets the counter to zero. -/
theorem soixante_coups_sans_capture (s : GameState) (depart arrivee : Int × Int)
    (hv : arrivee ∈ s.coups_valides) :
    (capturesApres s depart arrivee = [] → s.derniere_capture = 59 →
      (deplacer_pion s depart arrivee).1 = true ∧
      (deplacer_pion s depart arrivee).2.partie_terminee = true ∧
      (deplacer_pion s depart arrivee).2.gagnant = none) ∧
    (capturesApres s depart arrivee ≠ [] →
      (deplacer_pion s depart arrivee).2.derniere_capture = 0) := by
  constructor
  · intro hc h59
    unfold deplacer_pion
    rw [if_pos hv]
    simp [hc, h59]
  · intro hc
    unfold deplacer_pion
    rw [if_pos hv]
    have : (capturesApres s depart arrivee).isEmpty = false := by
      simpa [List.isEmpty_iff] using hc
    simp only [this, if_false, Bool.false_eq_true]
    split_ifs <;> rfl

/-- **C2**.  Characterisation of the capture scan shared by
`HasamiShogi.verifier_capture` and `IA.simuler_coup` — by their definitions,
the per-ray capture contribution of both is `rayCaptures`.  Along a ray from
the destination whose first `n + 1` cells all hold opposing pieces, the run is
removed entirely when the next cell holds the mover's piece, and not at all
when the scan reaches the board edge or an empty cell instead. -/
theorem capture_scan_spec (b : Board) (joueur : Nat) (hj : joueur = 1 ∨ joueur = 2)
    (pos dir : Int × Int) (hdir : dirUnitOrtho dir) (n : Nat)
    (hrun : ∀ t, t ≤ n → inB (stepCell pos dir t) ∧
      cellAt b (stepCell pos dir t) = 3 - joueur) :
    (inB (stepCell pos dir (n + 1)) → cellAt b (stepCell pos dir (n + 1)) = joueur →
      rayCaptures b joueur pos dir = (List.range (n + 1)).map (stepCell pos dir)) ∧
    ((¬ inB (stepCell pos dir (n + 1)) ∨ cellAt b (stepCell pos dir (n + 1)) = 0) →
      rayCaptures b joueur pos dir = []) := by
  have hrunmem : ∀ x ∈ (List.range (n + 1)).map (stepCell pos dir),
      cellAt b x = 3 - joueur := by
    intro x hx
    simp only [List.mem_map, List.mem_range] at hx
    obtain ⟨t, ht, rfl⟩ := hx
    exact (hrun t (by omega)).2
  constructor
  · intro hin hcell
    obtain ⟨rest, hdecomp⟩ := rayCells_closed pos dir (Or.inl hdir) n
      (fun t ht => by
        rcases Nat.lt_or_ge t (n + 1) with h | h
        · exact (hrun t (by omega)).1
        · have ht' : t = n + 1 := by omega
          subst ht'
          exact hin)
    unfold rayCaptures
    rw [hdecomp]
    have h := (scanRay_run_closed b joueur hj (stepCell pos dir (n + 1)) rest
      ((List.range (n + 1)).map (stepCell pos dir)) [] hrunmem).1 hcell
    simpa using h
  · intro hend
    by_cases hin : inB (stepCell pos dir (n + 1))
    · have hcell0 : cellAt b (stepCell pos dir (n + 1)) = 0 := by
        rcases hend with h | h
        · exact absurd hin h
        · exact h
      obtain ⟨rest, hdecomp⟩ := rayCells_closed pos dir (Or.inl hdir) n
        (fun t ht => by
          rcases Nat.lt_or_ge t (n + 1) with h | h
          · exact (hrun t (by omega)).1
          · have ht' : t = n + 1 := by omega
            subst ht'
            exact hin)
      unfold rayCaptures
      rw [hdecomp]
      exact (scanRay_run_closed b joueur hj (stepCell pos dir (n + 1)) rest
        ((List.range (n + 1)).map (stepCell pos dir)) [] hrunmem).2 hcell0
    · have hdecomp := rayCells_edge pos dir (Or.inl hdir) n (fun t ht => (hrun t ht).1) hin
      unfold rayCaptures
      rw [hdecomp]
      exact scanRay_run_edge b joueur hj _ [] hrunmem

/-- Witness for `capture_scan_spec`: the spec's concrete sandwich scenario —
mover pieces on `(3,3)` and `(3,5)` flanking an opposing piece on `(3,4)` —
captures exactly `(3,4)` on the rightward ray from `(3,3)`. -/
theorem capture_scan_spec_witness :
    ((1 : Nat) = 1 ∨ (1 : Nat) = 2) ∧
    dirUnitOrtho (0, 1) ∧
    (∀ t, t ≤ 0 → inB (stepCell (3, 3) (0, 1) t) ∧
      cellAt plateauSandwich (stepCell (3, 3) (0, 1) t) = 3 - 1) ∧
    inB (stepCell (3, 3) (0, 1) 1) ∧
    cellAt plateauSandwich (stepCell (3, 3) (0, 1) 1) = 1 ∧
    rayCaptures plateauSandwich 1 (3, 3) (0, 1) = [(3, 4)] := by
  have hj : (1 : Nat) = 1 ∨ (1 : Nat) = 2 := Or.inl rfl
  have hdir : dirUnitOrtho ((0 : Int), (1 : Int)) := Or.inl rfl
  have hrun : ∀ t, t ≤ 0 → inB (stepCell (3, 3) (0, 1) t) ∧
      cellAt plateauSandwich (stepCell (3, 3) (0, 1) t) = 3 - 1 := by
    intro t ht
    obtain rfl : t = 0 := Nat.le_zero.mp ht
    exact ⟨by decide, by decide⟩
  have hin : inB (stepCell (3, 3) (0, 1) 1) := by decide
  have hc : cellAt plateauSandwich (stepCell (3, 3) (0, 1) 1) = 1 := by decide
  have h := (capture_scan_spec plateauSandwich 1 hj (3, 3) (0, 1) hdir 0 hrun).1 hin hc
  have h2 : (List.range 1).map (stepCell (3, 3) ((0 : Int), (1 : Int))) =
      [((3 : Int), (4 : Int))] := by decide
  exact ⟨hj, hdir, hrun, hin, hc, h.trans h2⟩

/-- **C3** (counterexample).  After black plays `(1,3) → (1,0)` on
`plateauCoins`, both top corners hold an opposing piece whose two orthogonal
neighbours are black, yet `verifier_capture` captures only `(0,0)` — the
corner `(0,8)` qualifies but is not captured, refuting the per-corner "if and
only if".  The AI's `simuler_coup` on the same move captures neither corner:
it has no corner-capture rule at all. -/
theorem corner_capture_counterexample :
    coinQualifie (plateauApresDeplacement plateauCoins (1, 3) (1, 0)) 1 (0, 8) = true ∧
    verifier_capture false (plateauApresDeplacement plateauCoins (1, 3) (1, 0)) 1 (1, 0) =
      [((0 : Int), (0 : Int))] ∧
    coinQualifie (simuler_coup plateauCoins (1, 3) (1, 0) 1) 1 (0, 0) = true ∧
    cellAt (simuler_coup plateauCoins (1, 3) (1, 0) 1) (0, 0) = 2 ∧
    cellAt (simuler_coup plateauCoins (1, 3) (1, 0) 1) (0, 8) = 2 := by decide

/-- **C3** (amended).  In `verifier_capture` (whose corner block runs
regardless of the corner-capture option attribute), the corner loop selects
exactly the first corner in the scan order `(0,0), (0,8), (8,0), (8,8)` that
holds an opposing piece with both orthogonal neighbours the mover's; the full
capture list is the ray part plus that corner, so a corner is captured iff it
is the first qualifying one — in particular at most one corner per move, and
only qualifying corners.  `simuler_coup` performs no corner capture: no corner
ever appears in its capture list. -/
theorem corner_capture_spec (cd : Bool) (b : Board) (joueur : Nat)
    (pos : Int × Int) (hpos : inB pos) :
    (coins.find? (coinQualifie b joueur) =
      (if coinQualifie b joueur (0, 0) then some ((0 : Int), (0 : Int))
       else if coinQualifie b joueur (0, 8) then some ((0 : Int), (8 : Int))
       else if coinQualifie b joueur (8, 0) then some ((8 : Int), (0 : Int))
       else if coinQualifie b joueur (8, 8) then some ((8 : Int), (8 : Int))
       else none)) ∧
    (∀ x, x ∈ verifier_capture cd b joueur pos ↔
      x ∈ capturesClassiques cd b joueur pos ∨
        coins.find? (coinQualifie b joueur) = some x) ∧
    (∀ c ∈ coins, (c ∈ verifier_capture cd b joueur pos ↔
        coins.find? (coinQualifie b joueur) = some c)) ∧
    (∀ c ∈ coins, c ∉ simulerCaptures b pos joueur) := by
  have hnoray : ∀ c ∈ coins, c ∉ capturesClassiques cd b joueur pos := by
    intro c hc hmem
    rw [mem_capturesClassiques] at hmem
    obtain ⟨dir, hdir, hray⟩ := hmem
    have hdir8 : dirUnit8 dir := by
      rcases hdir with h | ⟨-, h⟩
      · simp only [dirsOrtho, List.mem_cons, List.mem_singleton, List.not_mem_nil,
          or_false] at h
        exact Or.inl (by simpa [dirUnitOrtho] using h)
      · simp only [dirsDiag, List.mem_cons, List.mem_singleton, List.not_mem_nil,
          or_false] at h
        exact Or.inr (by simpa using h)
    exact rayCaptures_no_corner b joueur pos hpos dir hdir8 c hc hray
  refine ⟨?_, ?_, ?_, ?_⟩
  · show List.find? (coinQualifie b joueur) coins = _
    rw [show coins = (0, 0) :: (0, 8) :: (8, 0) :: [((8 : Int), (8 : Int))] from rfl]
    by_cases q1 : coinQualifie b joueur (0, 0)
    · rw [if_pos q1, List.find?_cons_of_pos _ q1]
    · rw [if_neg q1, List.find?_cons_of_neg _ (by simpa using q1)]
      by_cases q2 : coinQualifie b joueur (0, 8)
      · rw [if_pos q2, List.find?_cons_of_pos _ q2]
      · rw [if_neg q2, List.find?_cons_of_neg _ (by simpa using q2)]
        by_cases q3 : coinQualifie b joueur (8, 0)
        · rw [if_pos q3, List.find?_cons_of_pos _ q3]
        · rw [if_neg q3, List.find?_cons_of_neg _ (by simpa using q3)]
          by_cases q4 : coinQualifie b joueur (8, 8)
          · rw [if_pos q4, List.find?_cons_of_pos _ q4]
          · rw [if_neg q4, List.find?_cons_of_neg _ (by simpa using q4)]
            rfl
  · intro x
    unfold verifier_capture
    cases hf : coins.find? (coinQualifie b joueur) with
    | none => simp [hf]
    | some c =>
      simp only [hf, List.mem_append, List.mem_singleton, Option.some.injEq]
      constructor
      · rintro (h | rfl)
        · exact Or.inl h
        · exact Or.inr rfl
      · rintro (h | rfl)
        · exact Or.inl h
        · exact Or.inr rfl
  · intro c hc
    unfold verifier_capture
    cases hf : coins.find? (coinQualifie b joueur) with
    | none =>
      simp only [hf]
      constructor
      · intro h
        exact absurd h (hnoray c hc)
      · intro h
        exact absurd h (by simp)
    | some c' =>
      simp only [hf, List.mem_append, List.mem_singleton, Option.some.injEq]
      constructor
      · rintro (h | rfl)
        · exact absurd h (hnoray c hc)
        · rfl
      · rintro rfl
        exact Or.inr rfl
  · intro c hc hmem
    rw [mem_simulerCaptures] at hmem
    obtain ⟨dir, hdir, hray⟩ := hmem
    have hdir8 : dirUnit8 dir := by
      simp only [dirsCoups, List.mem_cons, List.mem_singleton, List.not_mem_nil,
        or_false] at hdir
      rcases hdir with rfl | rfl | rfl | rfl <;>
        (simp only [dirUnit8, dirUnitOrtho]; decide)
    exact rayCaptures_no_corner b joueur pos hpos dir hdir8 c hc hray

/-- Witness for `corner_capture_spec`: after black's `(1,3) → (1,0)` on
`plateauCoins`, the qualifying corner `(0,0)` still does not appear in
`simuler_coup`'s capture list. -/
theorem corner_capture_spec_witness :
    inB ((1 : Int), (0 : Int)) ∧ (((0 : Int), (0 : Int)) ∈ coins) ∧
    (((0 : Int), (0 : Int)) ∉
      simulerCaptures (plateauApresDeplacement plateauCoins (1, 3) (1, 0)) (1, 0) 1) := by
  have hpos : inB ((1 : Int), (0 : Int)) := by decide
  have hc : ((0 : Int), (0 : Int)) ∈ coins := by decide
  exact ⟨hpos, hc,
    (corner_capture_spec false (plateauApresDeplacement plateauCoins (1, 3) (1, 0)) 1
      (1, 0) hpos).2.2.2 (0, 0) hc⟩

/-- **C9**.  In the heap model of `IA.simuler_coup`, the call returns a fresh
reference (the previously unused index `store.length`); every in-place write
targets that fresh array, so the caller's input board — like every other
stored board — keeps every cell value it had; and the fresh array holds
exactly the functional `simuler_coup` result. -/
theorem simuler_coup_frame (store : Store) (ref : Nat) (depart arrivee : Int × Int)
    (joueur : Nat) :
    (simuler_coup_heap store ref depart arrivee joueur).2 = store.length ∧
    (∀ i, i < store.length →
      (simuler_coup_heap store ref depart arrivee joueur).1.get? i = store.get? i) ∧
    (simuler_coup_heap store ref depart arrivee joueur).1.get? store.length =
      some (simuler_coup ((store.get? ref).getD default) depart arrivee joueur) := by
  set plateau := (store.get? ref).getD default with hplateau
  set s1 : Store := store ++ [plateau] with hs1
  set s2 : Store := writeCell s1 store.length arrivee (cellAt plateau depart) with hs2
  set s3 : Store := writeCell s2 store.length depart 0 with hs3
  have hgoal : simuler_coup_heap store ref depart arrivee joueur =
      ((simulerCaptures ((s3.get? store.length).getD default) arrivee joueur).foldl
        (fun st c => writeCell st store.length c 0) s3, store.length) := rfl
  have hlen1 : s1.length = store.length + 1 := by simp [hs1]
  have hlen2 : s2.length = store.length + 1 := by rw [hs2, writeCell_length, hlen1]
  have hlen3 : s3.length = store.length + 1 := by rw [hs3, writeCell_length, hlen2]
  have hb1 : s1.get? store.length = some plateau := List.get?_concat_length _ _
  have hr2 : s2.get? store.length =
      some (setCell plateau arrivee (cellAt plateau depart)) := by
    rw [hs2, writeCell_read s1 store.length (by omega), hb1]
    rfl
  have hr3 : s3.get? store.length =
      some (plateauApresDeplacement plateau depart arrivee) := by
    rw [hs3, writeCell_read s2 store.length (by omega), hr2]
    rfl
  have hnouveau : (s3.get? store.length).getD default =
      plateauApresDeplacement plateau depart arrivee := by
    rw [hr3]
    rfl
  refine ⟨by rw [hgoal], ?_, ?_⟩
  · intro i hi
    rw [hgoal]
    show ((simulerCaptures ((s3.get? store.length).getD default) arrivee joueur).foldl
      (fun st c => writeCell st store.length c 0) s3).get? i = store.get? i
    rw [foldl_writeCell_frame store.length _ s3 i (by omega), hs3,
      writeCell_frame _ _ _ (by omega), hs2, writeCell_frame _ _ _ (by omega), hs1,
      List.get?_append (by omega)]
  · rw [hgoal]
    show ((simulerCaptures ((s3.get? store.length).getD default) arrivee joueur).foldl
      (fun st c => writeCell st store.length c 0) s3).get? store.length =
      some (simuler_coup plateau depart arrivee joueur)
    rw [hnouveau, foldl_writeCell_read store.length _ s3 (by omega), hnouveau]
    rfl

/-- Witness for `simuler_coup_frame`: a one-board store whose board is the
initial position; the simulated move `(0,4) → (4,4)` leaves the stored board
untouched and allocates the result at index 1. -/
theorem simuler_coup_frame_witness :
    (simuler_coup_heap [plateauInitial] 0 (0, 4) (4, 4) 1).2 = 1 ∧
    (simuler_coup_heap [plateauInitial] 0 (0, 4) (4, 4) 1).1.get? 0 =
      some plateauInitial ∧
    (simuler_coup_heap [plateauInitial] 0 (0, 4) (4, 4) 1).1.get? 1 =
      some (simuler_coup plateauInitial (0, 4) (4, 4) 1) := by
  have h := simuler_coup_frame [plateauInitial] 0 (0, 4) (4, 4) 1
  exact ⟨h.1, h.2.1 0 (by decide), h.2.2⟩

/-- **C8**.  For every board, side, level configuration, starting cache, and
every behaviour of the random source (any permutation `σ` for the in-place
shuffle, arbitrary indices for the two `random.choice` sites): `choisir_coup`
returns `none` exactly when the side has no legal move, and any returned move
belongs to the legal-move set.  The empty-sequence exception paths of
`random.choice`/`max` (modelled by `none`) are unreachable when moves exist. -/
theorem choisir_coup_spec (ia : IA) (σ : List Move → List Move)
    (hσ : ∀ l, (σ l).Perm l) (pick1 pick2 : Nat) (plateau : Board) (joueur : Nat)
    (t : Transpo) :
    (choisir_coup ia σ pick1 pick2 plateau joueur t = none ↔
      obtenir_tous_coups_possibles plateau joueur = []) ∧
    (∀ m, choisir_coup ia σ pick1 pick2 plateau joueur t = some m →
      m ∈ obtenir_tous_coups_possibles plateau joueur) := by
  have hnone : obtenir_tous_coups_possibles plateau joueur = [] →
      choisir_coup ia σ pick1 pick2 plateau joueur t = none := by
    intro h
    unfold choisir_coup
    rw [if_pos h]
  have hcore : obtenir_tous_coups_possibles plateau joueur ≠ [] →
      ∃ m, choisir_coup ia σ pick1 pick2 plateau joueur t = some m ∧
        m ∈ obtenir_tous_coups_possibles plateau joueur := by
    intro h0
    have hperm := hσ (obtenir_tous_coups_possibles plateau joueur)
    have hsub : ∀ x, x ∈ σ (obtenir_tous_coups_possibles plateau joueur) →
        x ∈ obtenir_tous_coups_possibles plateau joueur :=
      fun x hx => hperm.mem_iff.mp hx
    have hne : σ (obtenir_tous_coups_possibles plateau joueur) ≠ [] := by
      intro h
      exact h0 ((h ▸ hperm).symm.eq_nil)
    have hsearch : ∀ search : Board → Transpo → EVal × Transpo,
        ∃ m, randomChoice (meilleursLoop search plateau joueur
            (order_moves (σ (obtenir_tous_coups_possibles plateau joueur)) plateau joueur)
            t).2.1 pick2 = some m ∧
          m ∈ obtenir_tous_coups_possibles plateau joueur := by
      intro search
      have hone := order_moves_ne_nil
        (σ (obtenir_tous_coups_possibles plateau joueur)) plateau joueur hne
      have hml := meilleursLoop_spec search plateau joueur
        (order_moves (σ (obtenir_tous_coups_possibles plateau joueur)) plateau joueur) t
      obtain ⟨m, hrc, hmem⟩ := randomChoice_spec _ pick2 (hml.2 hone)
      exact ⟨m, hrc, hsub m ((mem_order_moves _ _ _ m).mp (hml.1 m hmem))⟩
    unfold choisir_coup
    rw [if_neg h0]
    dsimp only
    by_cases h4 : ia.niveau = "4"
    · rw [if_pos h4]
      by_cases hemer : (joueur = 1 ∧ ia.evalF plateau joueur < -5) ∨
          (joueur = 2 ∧ 5 < ia.evalF plateau joueur)
      · rw [if_pos hemer]
        obtain ⟨m, hmax, hmem⟩ := maxBy_spec
          (fun a => ia.evalF (simuler_coup plateau a.1 a.2 joueur) joueur)
          (σ (obtenir_tous_coups_possibles plateau joueur)) hne
        exact ⟨m, hmax, hsub m hmem⟩
      · rw [if_neg hemer]
        by_cases hop : 70 < countVal plateau 0
        · rw [if_pos hop]
          by_cases hcen : (σ (obtenir_tous_coups_possibles plateau joueur)).filter
              (fun c => decide (2 ≤ c.2.1 ∧ c.2.1 ≤ 6 ∧ 2 ≤ c.2.2 ∧ c.2.2 ≤ 6)) = []
          · rw [if_pos hcen]
            by_cases h1 : ia.niveau = "1"
            · rw [if_pos h1]
              exact hsearch _
            · rw [if_neg h1]
              exact hsearch _
          · rw [if_neg hcen]
            obtain ⟨m, hrc, hmem⟩ := randomChoice_spec _ pick1 hcen
            exact ⟨m, hrc, hsub m (List.mem_of_mem_filter hmem)⟩
        · rw [if_neg hop]
          by_cases h1 : ia.niveau = "1"
          · rw [if_pos h1]
            exact hsearch _
          · rw [if_neg h1]
            exact hsearch _
    · rw [if_neg h4]
      by_cases hop : 70 < countVal plateau 0
      · rw [if_pos hop]
        by_cases hcen : (σ (obtenir_tous_coups_possibles plateau joueur)).filter
            (fun c => decide (2 ≤ c.2.1 ∧ c.2.1 ≤ 6 ∧ 2 ≤ c.2.2 ∧ c.2.2 ≤ 6)) = []
        · rw [if_pos hcen]
          by_cases h1 : ia.niveau = "1"
          · rw [if_pos h1]
            exact hsearch _
          · rw [if_neg h1]
            exact hsearch _
        · rw [if_neg hcen]
          obtain ⟨m, hrc, hmem⟩ := randomChoice_spec _ pick1 hcen
          exact ⟨m, hrc, hsub m (List.mem_of_mem_filter hmem)⟩
      · rw [if_neg hop]
        by_cases h1 : ia.niveau = "1"
        · rw [if_pos h1]
          exact hsearch _
        · rw [if_neg h1]
          exact hsearch _
  by_cases h0 : obtenir_tous_coups_possibles plateau joueur = []
  · refine ⟨⟨fun _ => h0, fun _ => hnone h0⟩, fun m hm => ?_⟩
    rw [hnone h0] at hm
    exact Option.noConfusion hm
  · obtain ⟨m, hm, hmem⟩ := hcore h0
    refine ⟨⟨fun hn => ?_, fun hh => absurd hh h0⟩, fun m' hm' => ?_⟩
    · rw [hm] at hn
      exact Option.noConfusion hn
    · rw [hm] at hm'
      obtain rfl : m = m' := Option.some.inj hm'
      exact hmem

/-- Witness for `choisir_coup_spec`: the identity shuffle on the initial board
for black at level "1"; the chosen move exists and is legal. -/
theorem choisir_coup_spec_witness :
    (∀ l : List Move, (id l).Perm l) ∧
    ((choisir_coup (IA.init "1") id 0 0 plateauInitial 1 emptyTranspo = none ↔
      obtenir_tous_coups_possibles plateauInitial 1 = []) ∧
    (∀ m, choisir_coup (IA.init "1") id 0 0 plateauInitial 1 emptyTranspo = some m →
      m ∈ obtenir_tous_coups_possibles plateauInitial 1)) :=
  ⟨fun l => List.Perm.refl l,
    choisir_coup_spec (IA.init "1") id (fun l => List.Perm.refl l) 0 0 plateauInitial 1
      emptyTranspo⟩

/-- Witness for `soixante_coups_sans_capture`: from `etat59`, the captureless
move `(0,4) → (4,4)` is the 60th captureless half-move and draws the game. -/
theorem soixante_coups_sans_capture_witness :
    ((4, 4) ∈ etat59.coups_valides) ∧
    capturesApres etat59 (0, 4) (4, 4) = [] ∧
    etat59.derniere_capture = 59 ∧
    (deplacer_pion etat59 (0, 4) (4, 4)).2.partie_terminee = true ∧
    (deplacer_pion etat59 (0, 4) (4, 4)).2.gagnant = none := by
  have hv : ((4 : Int), (4 : Int)) ∈ etat59.coups_valides := by decide
  have hc : capturesApres etat59 (0, 4) (4, 4) = [] := by decide
  have h59 : etat59.derniere_capture = 59 := by decide
  have h := (soixante_coups_sans_capture etat59 (0, 4) (4, 4) hv).1 hc h59
  exact ⟨hv, hc, h59, h.2.1, h.2.2⟩

end Hasami
